import Mathlib

/-!
Shallow embedding of the orchestration core of `autoGetKeys/auto_login.py`
(the gcloud login automation: step executor, multi-window polling scheduler,
resource cleanup, top-level exception dispatch) together with the retry
framework of `retry_utils.py`, and proofs of the specification claims
about them.

Python runtime values are modelled explicitly: machine state that the code
reads (current URL, element probes, the stop event, wall clock) is supplied
by an environment/oracle, exceptions are `Except` errors, and side effects
(stdin writes, window closes, refreshes) are recorded in an event trace.
-/

namespace AutoLogin

/-! ### Python exception model

Constructors for the members of Python's `Exception` hierarchy that the
code raises or handles.  Note that the builtin `TimeoutError` and
selenium's `TimeoutException` are distinct, unrelated classes. -/

inductive PyExc
  | verificationRequired
  | permissionDenied
  | notFound
  | alreadyExists
  | invalidArgument
  | failedPrecondition
  | notImplementedError
  | typeError
  | interruptedError
  | timeoutError
  | timeoutExceptionSel
  | noSuchWindow
  | invalidSessionId
  | runtimeError
  | otherExc
  deriving DecidableEq, Repr

/-! ### Step Executor: the nested `try_step` (auto_login.py lines 106-128) -/

/-- Substring test on character lists (helper for Python's `in` on strings). -/
def strContainsAux (needle : List Char) : List Char → Bool
  | [] => decide (needle = [])
  | c :: cs => needle.isPrefixOf (c :: cs) || strContainsAux needle cs

/-- Python `expected_url_part in current_url` substring test. -/
def pyIn (needle hay : String) : Bool := strContainsAux needle.toList hay.toList

/-- Python `s.startswith(pre)` / the XPath `starts-with(text(), ...)` filter. -/
def pyStartsWith (pre s : String) : Bool := pre.toList.isPrefixOf s.toList

/-- Model of `try_step(action_function, expected_url_part, step_name,
max_retries)`.  The browser session is a state `S`; `stop` models
`stop_event.is_set()`, `action` the supplied `action_function`, `back`
`driver.back()` and `current_url` `driver.current_url`.  Returns the boolean
result together with the number of times the action was executed. -/
def try_step {S : Type} (stop : S → Bool) (action : S → S) (back : S → S)
    (current_url : S → String) (expected_url_part : String) :
    Nat → S → Bool × Nat
  | 0, _ => (false, 0)
  | maxRetries + 1, s =>
    if stop s then (false, 0)
    else
      let s1 := action s
      if pyIn expected_url_part (current_url s1) then (true, 1)
      else
        let r := try_step stop action back current_url expected_url_part maxRetries (back s1)
        (r.1, r.2 + 1)

/-! ### retry_utils.robust_retry (retry_utils.py lines 13-94) -/

/-- The `UNRECOVERABLE_EXCEPTIONS` blocklist of retry_utils.py lines 20-30. -/
def unrecoverable : PyExc → Bool
  | .verificationRequired => true
  | .permissionDenied => true
  | .notFound => true
  | .alreadyExists => true
  | .invalidArgument => true
  | .failedPrecondition => true
  | .notImplementedError => true
  | .typeError => true
  | .interruptedError => true
  | _ => false

/-- The retry loop of `robust_retry`'s wrapper from a given attempt index.
`stop` gives the stop event's value when attempt `attempt` begins, `func`
the outcome of calling the wrapped function on that attempt.
`existing_result` mirrors the loop-carried Python local of the same name
(initialised to `None` at line 53 and never reassigned).  Returns `none`
if the `for` loop falls through (only possible with `max_retries = 0`),
together with the number of calls made to the wrapped function. -/
def robust_retry_aux {α : Type} (max_retries : Nat) (stop : Nat → Bool)
    (success_on_existing : Bool) (func : Nat → Except PyExc α) :
    Nat → Option α → Nat → Option (Except PyExc α) × Nat
  | _, _, 0 => (none, 0)
  | attempt, existing_result, rem + 1 =>
    if stop attempt then (some (.error .interruptedError), 0)
    else
      match func attempt with
      | .ok v => (some (.ok v), 1)
      | .error e =>
        match success_on_existing, existing_result with
        | true, some v => (some (.ok v), 1)
        | _, _ =>
        if unrecoverable e then (some (.error e), 1)
        else if max_retries ≤ attempt + 1 then (some (.error e), 1)
        else
          let r := robust_retry_aux max_retries stop success_on_existing func
            (attempt + 1) existing_result rem
          (r.1, r.2 + 1)

/-- `robust_retry(max_retries, ...)` applied to a function: the wrapper body,
with `existing_result = None` as initialised at retry_utils.py line 53. -/
def robust_retry {α : Type} (max_retries : Nat) (stop : Nat → Bool)
    (success_on_existing : Bool) (func : Nat → Except PyExc α) :
    Option (Except PyExc α) × Nat :=
  robust_retry_aux max_retries stop success_on_existing func 0 none max_retries

/-! ### The step-2 marker branch (auto_login.py lines 331-359) and the
outer exception dispatch (lines 604-623) -/

/-- The three markers the composite wait of lines 334-344 can find. -/
inductive Marker
  | passwordField
  | robotMarker
  | twoStepMarker
  deriving DecidableEq, Repr

/-- `wait_and_check_stop` in blocking mode (lines 307-317): the stop event
raises `InterruptedError`; if the condition never holds before the
computed `end_time` it raises the *builtin* `TimeoutError` (line 317),
not selenium's `TimeoutException`. -/
def wacs_blocking (stopSet : Bool) (found : Option Marker) : Except PyExc Marker :=
  if stopSet then .error .interruptedError
  else
    match found with
    | some m => .ok m
    | none => .error .timeoutError

/-- Lines 338-359: the `try` block around the composite marker wait.  A
found element that is not the password field raises
`VerificationRequiredException`; the `except TimeoutException` clause
(line 356) converts selenium's `TimeoutException` — and only that class —
into `VerificationRequiredException`; every other error propagates. -/
def step2_branch (w : Except PyExc Marker) : Except PyExc Unit :=
  match w with
  | .ok m => if m = .passwordField then .ok () else .error .verificationRequired
  | .error e => if e = .timeoutExceptionSel then .error .verificationRequired else .error e

/-- Lines 604-623: the outer `except Exception` handler of
`perform_login_automation`: `VerificationRequiredException` is re-raised,
every other `Exception` becomes a `False` return. -/
def outer_dispatch (r : Except PyExc Bool) : Except PyExc Bool :=
  match r with
  | .ok b => .ok b
  | .error e => if e = .verificationRequired then .error .verificationRequired else .ok false

/-! ### Timeout computations (lines 245, 307, 581) -/

def GCLOUD_AUTH_URL_TIMEOUT : ℚ := 20

def ELEMENT_VISIBILITY_TIMEOUT : ℚ := 20

/-- Line 245: `auth_wait_timeout = min(GCLOUD_AUTH_URL_TIMEOUT, max(0.1,
deadline - time.time()))`. -/
def auth_wait_timeout (deadline now : ℚ) : ℚ :=
  min GCLOUD_AUTH_URL_TIMEOUT (max (1/10) (deadline - now))

/-- Line 307: `end_time = time.time() + timeout` — the blocking wait of
`wait_and_check_stop` runs until this absolute time; no deadline term
appears in it. -/
def wacs_end_time (now timeout : ℚ) : ℚ := now + timeout

/-- Line 581: `process.wait(timeout=10)` — a fixed timeout; the comment at
lines 579-580 states the dynamic deadline is deliberately not used. -/
def gcloud_wait_timeout : ℚ := 10

/-! ### cleanup_resources (lines 130-181) -/

/-- The process ids cleanup can read off the driver object. -/
structure DriverHandles where
  browser_pid : Option Nat
  service_pid : Option Nat
  deriving DecidableEq, Repr

/-- The `nonlocal` state cleanup_resources operates on.  `processRunning =
some b` means the `process` variable is a live object and `b` tells whether
`process.poll() is None` (still running). -/
structure CleanupState where
  driver : Option DriverHandles
  processRunning : Option Bool
  stderrAlive : Bool
  deriving DecidableEq, Repr

/-- The externally visible teardown actions cleanup_resources performs. -/
inductive CleanAct
  | killPid (pid : Nat)
  | killGcloudTree
  | joinStderr
  deriving DecidableEq, Repr

/-- Model of `cleanup_resources` (lines 130-181).  Every OS call in the
source is wrapped in `try/except` clauses catching exactly the exception
classes those calls raise (`ProcessLookupError`, `TypeError`, `OSError`,
`PermissionError`), so the function is total: it returns the updated state
and the list of attempted teardown actions.  `driver` is severed
unconditionally once entered; `process` is set to `None` in the `finally`
of the kill block, which runs only when the process was still running. -/
def cleanup_resources (s : CleanupState) : CleanupState × List CleanAct :=
  let part1 : Option DriverHandles × List CleanAct :=
    match s.driver with
    | none => (none, [])
    | some d =>
      let pids := (match d.browser_pid with | some p => [p] | none => []) ++
                  (match d.service_pid with | some p => [p] | none => [])
      (none, pids.map CleanAct.killPid)
  let part2 : Option Bool × List CleanAct :=
    match s.processRunning with
    | some true => (none, [CleanAct.killGcloudTree])
    | other => (other, [])
  let part3 : List CleanAct := if s.stderrAlive then [CleanAct.joinStderr] else []
  (⟨part1.1, part2.1, s.stderrAlive⟩, part1.2 ++ part2.2 ++ part3)

/-- Lines 191-626: the `try/except/finally` skeleton of
`perform_login_automation`.  `body` is the outcome of the try block (lines
191-602: either a returned boolean or a raised exception); the except
clause is `outer_dispatch` and the `finally` clause runs
`cleanup_resources` on every path.  Returns the call's outcome, the
cleanup state after the finally block, and the teardown actions taken. -/
def perform_login_automation (body : Except PyExc Bool) (s : CleanupState) :
    (Except PyExc Bool) × CleanupState × List CleanAct :=
  let r := outer_dispatch body
  let c := cleanup_resources s
  (r, c.1, c.2)

/-! ### The multi-window polling scheduler (lines 369-571)

The three Window Task Records of the `tasks` dict (line 398), the dynamic
`active_tasks` list (line 403), the index-driven inner pass (lines
413-543), the outer deadline loop (line 407) and the final checks (lines
549-571).  Wall-clock time is a natural number; the environment supplies,
per scheduler step, the observation the driver makes during that visit and
the time that elapses. -/

/-- The keys of the `tasks` dict, in insertion order. -/
inductive Key
  | main
  | gen_lang
  | universal
  deriving DecidableEq, Repr

/-- `task["name"]` (lines 399-401). -/
def Key.pyName : Key → String
  | .main => "主流程"
  | .gen_lang => "Gen Language ToS"
  | .universal => "Universal ToS"

/-- `task["status"]` values. -/
inductive Status
  | wait_continue
  | wait_allow
  | wait_code
  | unknown
  | wait_accept
  | wait_accept_confirmation
  | done
  deriving DecidableEq, Repr

/-- `task["result"]` values: `None`, a boolean, or the captured code string. -/
inductive PyVal
  | none
  | pyFalse
  | pyTrue
  | str (s : String)
  deriving DecidableEq, Repr

/-- Python truthiness of a `task["result"]` value. -/
def PyVal.truthy : PyVal → Bool
  | .none => false
  | .pyFalse => false
  | .pyTrue => true
  | .str s => !s.data.isEmpty

/-- One Window Task Record (handle and name are determined by the key). -/
structure TaskRec where
  status : Status
  result : PyVal
  refresh_count : Nat
  deriving DecidableEq, Repr

/-- The `tasks` dict of line 398. -/
structure Tasks where
  tmain : TaskRec
  tgen : TaskRec
  tuni : TaskRec
  deriving DecidableEq, Repr

def Tasks.get (t : Tasks) : Key → TaskRec
  | .main => t.tmain
  | .gen_lang => t.tgen
  | .universal => t.tuni

def Tasks.set (t : Tasks) : Key → TaskRec → Tasks
  | .main, r => { t with tmain := r }
  | .gen_lang, r => { t with tgen := r }
  | .universal, r => { t with tuni := r }

/-- Initial records (lines 398-402). -/
def initTasks : Tasks :=
  ⟨⟨.wait_continue, .none, 0⟩, ⟨.wait_accept, .pyFalse, 0⟩, ⟨.wait_accept, .pyFalse, 0⟩⟩

/-- What a non-blocking element probe can find during a visit. -/
inductive Probe
  | nothing
  | continueBtn
  | allowBtn
  | codeElem (s : String)
  | accountChooser
  | acceptBtn
  | alreadyText
  deriving DecidableEq, Repr

/-- The observation the driver makes during one visit of one record:
the stop event is set (`InterruptedError` from `wait_and_check_stop`),
the window no longer exists (`NoSuchWindowException`), a driver command
times out (`TimeoutError`/`TimeoutException`, handled at lines 518-533),
the main-flow window's URL is off `accounts.google.com` /
`sdk.cloud.google.com` (lines 428-435), or the probe outcome. -/
inductive Obs
  | interrupted
  | noWindow
  | timeout
  | wrongPage
  | probe (p : Probe)
  deriving DecidableEq, Repr

/-- The side effects a visit (and the post-loop code) can perform. -/
inductive Event
  | codeRead (s : String)
  | stdinWrite (s : String)
  | stdinFlush
  | closeWin (k : Key)
  | setDone (k : Key)
  | clickContinue
  | clickAllow
  | clickAccount
  | clickAccept (k : Key)
  | backNav (k : Key)
  | refreshWin (k : Key)
  | stdinClose
  | procWait
  deriving DecidableEq, Repr

/-- The shared timeout handler (lines 518-533): at most 2 refreshes, a
refresh only before the deadline; otherwise the record is failed. -/
def onTimeout (k : Key) (r : TaskRec) (now deadline : Nat) :
    TaskRec × List Event × Bool :=
  if r.refresh_count < 2 then
    if now < deadline then
      ({ r with refresh_count := r.refresh_count + 1 }, [.refreshWin k], false)
    else
      ({ r with status := .done, result := .pyFalse }, [.setDone k], false)
  else
    ({ r with status := .done, result := .pyFalse }, [.setDone k], false)

/-- One visit of the main-flow record (lines 426-488 together with the
handlers at 518-537).  Returns the updated record, the events performed,
and whether `InterruptedError` propagated. -/
def visitMain (r : TaskRec) (o : Obs) (now deadline : Nat) :
    TaskRec × List Event × Bool :=
  match o with
  | .interrupted => (r, [], true)
  | .noWindow => ({ r with status := .done }, [.setDone .main], false)
  | .timeout => onTimeout .main r now deadline
  | .wrongPage => ({ r with status := .unknown }, [.backNav .main], false)
  | .probe p =>
    match r.status, p with
    | .wait_continue, .continueBtn =>
      ({ r with status := .wait_allow }, [.clickContinue], false)
    | .wait_allow, .allowBtn =>
      ({ r with status := .wait_code }, [.clickAllow], false)
    | .wait_code, .codeElem s =>
      if pyStartsWith "4/0" s then
        ({ r with status := .done, result := .str s },
         [.codeRead s, .stdinWrite s, .stdinFlush, .closeWin .main, .setDone .main],
         false)
      else (r, [], false)
    | .unknown, .allowBtn => ({ r with status := .wait_allow }, [], false)
    | .unknown, .continueBtn => ({ r with status := .wait_continue }, [], false)
    | .unknown, .accountChooser =>
      ({ r with status := .wait_continue }, [.clickAccount], false)
    | _, _ => (r, [], false)

/-- One visit of a ToS consent record (lines 491-516 with the shared
handlers).  The auxiliary branch performs no URL check, so `wrongPage`
cannot arise there; it is treated as an uneventful visit. -/
def visitToS (k : Key) (r : TaskRec) (o : Obs) (now deadline : Nat) :
    TaskRec × List Event × Bool :=
  match o with
  | .interrupted => (r, [], true)
  | .noWindow => ({ r with status := .done }, [.setDone k], false)
  | .timeout => onTimeout k r now deadline
  | .wrongPage => (r, [], false)
  | .probe p =>
    match r.status, p with
    | .wait_accept, .acceptBtn =>
      ({ r with status := .wait_accept_confirmation }, [.clickAccept k], false)
    | .wait_accept, .alreadyText =>
      ({ r with status := .done, result := .pyTrue }, [.setDone k, .closeWin k], false)
    | .wait_accept_confirmation, .alreadyText =>
      ({ r with status := .done, result := .pyTrue }, [.setDone k, .closeWin k], false)
    | _, _ => (r, [], false)

/-- Visit dispatch on the record's key (line 426 `if task["name"] == "主流程"`). -/
def visit (k : Key) : TaskRec → Obs → Nat → Nat → TaskRec × List Event × Bool :=
  match k with
  | .main => visitMain
  | _ => visitToS k

/-- The scheduler's environment: `obs n` is the observation of the `n`-th
scheduler step (visits and end-of-pass sleeps, globally counted) and
`dt n` the wall-clock time that step consumes. -/
structure Env where
  obs : Nat → Obs
  dt : Nat → Nat

/-- The result of one inner pass (lines 413-543). -/
structure PassOut where
  active : List Key
  tasks : Tasks
  trace : List Event
  visited : List Key
  ctr : Nat
  now : Nat
  intr : Bool
  deriving Repr

/-- The literal index-driven inner pass: `i = 0; while i < len(active_tasks)`
with `pop(i)` on completion and `i += 1` otherwise (lines 413-543). -/
def innerLoopAux (env : Env) (deadline : Nat) (i : Nat) (active : List Key)
    (tasks : Tasks) (trace : List Event) (visited : List Key) (ctr now : Nat) :
    PassOut :=
  if h : i < active.length then
    let k := active.get ⟨i, h⟩
    let v := visit k (tasks.get k) (env.obs ctr) now deadline
    let tasks1 := tasks.set k v.1
    let trace1 := trace ++ v.2.1
    let visited1 := visited ++ [k]
    if v.2.2 then
      ⟨active, tasks1, trace1, visited1, ctr + 1, now + env.dt ctr, true⟩
    else if v.1.status = .done then
      innerLoopAux env deadline i (active.eraseIdx i) tasks1 trace1 visited1
        (ctr + 1) (now + env.dt ctr)
    else
      innerLoopAux env deadline (i + 1) active tasks1 trace1 visited1
        (ctr + 1) (now + env.dt ctr)
  else
    ⟨active, tasks, trace, visited, ctr, now, false⟩
termination_by active.length - i
decreasing_by
  · simp [List.length_eraseIdx_of_lt h]; omega
  · omega

/-- One inner pass in structural form: the records still to be visited are
consumed head-first.  This is the same pass as `innerLoopAux` (proved
equal below): the records before the index are exactly the already-kept
prefix. -/
def passRec (env : Env) (deadline : Nat) :
    List Key → Tasks → List Event → List Key → Nat → Nat → PassOut
  | [], tasks, trace, visited, ctr, now => ⟨[], tasks, trace, visited, ctr, now, false⟩
  | k :: rest, tasks, trace, visited, ctr, now =>
    let v := visit k (tasks.get k) (env.obs ctr) now deadline
    let tasks1 := tasks.set k v.1
    let trace1 := trace ++ v.2.1
    let visited1 := visited ++ [k]
    if v.2.2 then
      ⟨k :: rest, tasks1, trace1, visited1, ctr + 1, now + env.dt ctr, true⟩
    else
      let t := passRec env deadline rest tasks1 trace1 visited1 (ctr + 1) (now + env.dt ctr)
      if v.1.status = .done then t else { t with active := k :: t.active }

/-- The result of the outer poll loop. -/
structure LoopOut where
  tasks : Tasks
  active : List Key
  trace : List Event
  ctr : Nat
  now : Nat
  intr : Bool
  fuelOut : Bool
  deriving Repr

/-- The outer poll loop (lines 407-545): `while time.time() < deadline`,
break on an empty active list, one inner pass, then `time.sleep(0.2)`
(modelled as one further environment step).  `fuel` bounds the number of
outer iterations so the model is total; a run that exhausts it is marked. -/
def pollLoop (env : Env) (deadline : Nat) :
    Nat → List Key → Tasks → List Event → Nat → Nat → LoopOut
  | 0, active, tasks, trace, ctr, now => ⟨tasks, active, trace, ctr, now, false, true⟩
  | fuel + 1, active, tasks, trace, ctr, now =>
    if now < deadline then
      if active.isEmpty then ⟨tasks, active, trace, ctr, now, false, false⟩
      else
        let p := passRec env deadline active tasks trace [] ctr now
        if p.intr then ⟨p.tasks, p.active, p.trace, p.ctr, p.now, true, false⟩
        else
          pollLoop env deadline fuel p.active p.tasks p.trace (p.ctr + 1)
            (p.now + env.dt p.ctr)
    else ⟨tasks, active, trace, ctr, now, false, false⟩

/-- Outcome of the whole browser poll phase. -/
inductive PhaseOutcome
  | ok
  | interrupted
  | fuelOut
  | errTimeout
  | errRuntimeNoNames
  | errNames (ns : List String)
  deriving DecidableEq, Repr

def allDone (t : Tasks) : Bool :=
  (t.tmain.status = Status.done ∧ t.tgen.status = Status.done ∧
    t.tuni.status = Status.done : Prop)

def allTruthy (t : Tasks) : Bool :=
  t.tmain.result.truthy && t.tgen.result.truthy && t.tuni.result.truthy

/-- Line 566: the names of the records whose stored result is not truthy. -/
def falsyNames (t : Tasks) : List String :=
  (([Key.main, Key.gen_lang, Key.universal]).filter
    (fun k => !(t.get k).result.truthy)).map Key.pyName

/-- Lines 564-567: the final result verification. -/
def resultsCheck (t : Tasks) : PhaseOutcome :=
  if allTruthy t then .ok else .errNames (falsyNames t)

/-- Lines 549-567: the post-loop checks, in source order. -/
def finalChecks (t : Tasks) (now deadline : Nat) : PhaseOutcome :=
  if allDone t then resultsCheck t
  else if deadline ≤ now then .errTimeout
  else if t.tmain.status = Status.done && t.tmain.result.truthy then resultsCheck t
  else .errRuntimeNoNames

/-- The result of the browser poll phase. -/
structure PhaseOut where
  tasks : Tasks
  active : List Key
  trace : List Event
  outcome : PhaseOutcome
  deriving Repr

/-- The whole browser poll phase (lines 398-571 and the wait at 581): the
poll loop from the initial records, the post-loop checks, and — only when
they all pass — `process.stdin.close()` (line 571) followed by
`process.wait` (line 581). -/
def browserPhase (env : Env) (deadline fuel : Nat) : PhaseOut :=
  let L := pollLoop env deadline fuel [Key.main, Key.gen_lang, Key.universal]
    initTasks [] 0 0
  if L.intr then ⟨L.tasks, L.active, L.trace, .interrupted⟩
  else if L.fuelOut then ⟨L.tasks, L.active, L.trace, .fuelOut⟩
  else
    match finalChecks L.tasks L.now deadline with
    | .ok => ⟨L.tasks, L.active, L.trace ++ [.stdinClose, .procWait], .ok⟩
    | out => ⟨L.tasks, L.active, L.trace, out⟩

/-! ### Infrastructure lemmas on the model -/

theorem Tasks.get_set_same (t : Tasks) (k : Key) (r : TaskRec) :
    (t.set k r).get k = r := by
  cases k <;> rfl

theorem Tasks.get_set_ne (t : Tasks) {k k' : Key} (r : TaskRec) (h : k' ≠ k) :
    (t.set k r).get k' = t.get k' := by
  cases k <;> cases k' <;> first | rfl | exact absurd rfl h

/-- Is an event a write of the verification code to the subprocess stdin? -/
def isWriteEvt : Event → Bool
  | .stdinWrite _ => true
  | _ => false

/-- Is an event a read of the code element from the main window's DOM? -/
def isReadEvt : Event → Bool
  | .codeRead _ => true
  | _ => false

def writeCount (t : List Event) : Nat := (t.filter isWriteEvt).length

def readCount (t : List Event) : Nat := (t.filter isReadEvt).length

/-- 1 when the main record's stored result is a captured code string. -/
def mainStrFlag (t : Tasks) : Nat :=
  match t.tmain.result with
  | .str _ => 1
  | _ => 0

theorem writeCount_append (a b : List Event) :
    writeCount (a ++ b) = writeCount a + writeCount b := by
  simp [writeCount, List.filter_append]

theorem readCount_append (a b : List Event) :
    readCount (a ++ b) = readCount a + readCount b := by
  simp [readCount, List.filter_append]

theorem one_le_readCount {t : List Event} {s : String} (h : Event.codeRead s ∈ t) :
    1 ≤ readCount t := by
  have hm : Event.codeRead s ∈ t.filter isReadEvt := List.mem_filter.2 ⟨h, rfl⟩
  show 0 < (t.filter isReadEvt).length
  exact List.length_pos.2 (List.ne_nil_of_mem hm)

theorem exists_write_of_writeCount_one {t : List Event} (h : writeCount t = 1) :
    ∃ s, Event.stdinWrite s ∈ t := by
  have hne : t.filter isWriteEvt ≠ [] := by
    intro hnil
    rw [writeCount, hnil] at h
    simp at h
  obtain ⟨e, he⟩ := List.exists_mem_of_ne_nil _ hne
  obtain ⟨hmem, hw⟩ := List.mem_filter.1 he
  cases e <;> first | exact ⟨_, hmem⟩ | simp [isWriteEvt] at hw

/-- Read-then-close safety for a trace: every prefix that already contains
the close of the main-flow window also contains a read of its code. -/
def chunkGood (t : List Event) : Prop :=
  ∀ p : List Event, p <+: t → Event.closeWin Key.main ∈ p → ∃ s, Event.codeRead s ∈ p

theorem chunkGood_of_not_mem {t : List Event} (h : Event.closeWin Key.main ∉ t) :
    chunkGood t := fun _p hp hm => absurd (hp.subset hm) h

theorem chunkGood_nil : chunkGood [] :=
  chunkGood_of_not_mem (by simp)

theorem chunkGood_append {a b : List Event} (ha : chunkGood a) (hb : chunkGood b) :
    chunkGood (a ++ b) := by
  intro p hp hm
  have h2 : a <+: a ++ b := ⟨b, rfl⟩
  rcases List.prefix_or_prefix_of_prefix hp h2 with hpa | hap
  · exact ha p hpa hm
  · rcases hap with ⟨p2, hp2⟩
    subst hp2
    have hp2b : p2 <+: b := by
      rcases hp with ⟨r, hr⟩
      have hr2 : a ++ (p2 ++ r) = a ++ b := by simpa [List.append_assoc] using hr
      exact ⟨r, List.append_cancel_left hr2⟩
    rcases List.mem_append.1 hm with hma | hmp
    · rcases ha a List.prefix_rfl hma with ⟨s, hs⟩
      exact ⟨s, List.mem_append.2 (Or.inl hs)⟩
    · rcases hb p2 hp2b hmp with ⟨s, hs⟩
      exact ⟨s, List.mem_append.2 (Or.inr hs)⟩

/-- The code-submission chunk emitted at lines 455-463 is read-then-close. -/
theorem chunkGood_codeChunk (s : String) :
    chunkGood [Event.codeRead s, Event.stdinWrite s, Event.stdinFlush,
      Event.closeWin Key.main, Event.setDone Key.main] := by
  intro p hp hm
  rcases p with _ | ⟨e, p'⟩
  · simp at hm
  · rcases hp with ⟨r, hr⟩
    have he : e = Event.codeRead s := by
      have := congrArg (fun l => l.head?) hr
      simpa using this
    exact ⟨s, by simp [he]⟩

/-- The two possible outcomes of the shared timeout handler. -/
theorem onTimeout_cases (k : Key) (r : TaskRec) (now d : Nat) :
    (r.refresh_count < 2 ∧ now < d ∧
      onTimeout k r now d =
        ({ r with refresh_count := r.refresh_count + 1 }, [.refreshWin k], false))
    ∨ onTimeout k r now d =
        ({ r with status := .done, result := .pyFalse }, [.setDone k], false) := by
  unfold onTimeout
  by_cases h1 : r.refresh_count < 2
  · by_cases h2 : now < d
    · exact Or.inl ⟨h1, h2, by simp [h1, h2]⟩
    · exact Or.inr (by simp [h1, h2])
  · exact Or.inr (by simp [h1])

/-- The code-capture branch of the main-flow visit, positive case. -/
theorem visitMain_code_pos {s : String} (hsw : pyStartsWith "4/0" s = true)
    (res : PyVal) (rc now d : Nat) :
    visitMain ⟨.wait_code, res, rc⟩ (.probe (.codeElem s)) now d =
      (⟨.done, .str s, rc⟩,
       [.codeRead s, .stdinWrite s, .stdinFlush, .closeWin .main, .setDone .main],
       false) := by
  simp [visitMain, hsw]

/-- The code-capture branch of the main-flow visit, negative case: an
element whose text does not start with the code sentinel is not matched. -/
theorem visitMain_code_neg {s : String} (hsw : pyStartsWith "4/0" s = false)
    (res : PyVal) (rc now d : Nat) :
    visitMain ⟨.wait_code, res, rc⟩ (.probe (.codeElem s)) now d =
      (⟨.wait_code, res, rc⟩, [], false) := by
  simp [visitMain, hsw]

/-- Classification of one visit's effects: the refresh counter stays ≤ 2,
the emitted chunk is read-then-close safe and contains no post-loop event,
a falsy result can only turn truthy together with `done`, and the visit is
either the main-flow code capture (with its exact event sequence) or emits
no stdin write / code read and only moves the result to a terminal value. -/
theorem visit_props (k : Key) (r : TaskRec) (o : Obs) (now d : Nat) :
    (r.refresh_count ≤ 2 → (visit k r o now d).1.refresh_count ≤ 2)
    ∧ chunkGood (visit k r o now d).2.1
    ∧ Event.stdinClose ∉ (visit k r o now d).2.1
    ∧ Event.procWait ∉ (visit k r o now d).2.1
    ∧ (r.result.truthy = false →
        (visit k r o now d).1.result.truthy = true →
          (visit k r o now d).1.status = .done)
    ∧ ((k = .main ∧ r.status = .wait_code ∧ ∃ s, o = .probe (.codeElem s) ∧
          pyStartsWith "4/0" s = true ∧
          (visit k r o now d).1 = { r with status := .done, result := .str s } ∧
          (visit k r o now d).2.1 = [.codeRead s, .stdinWrite s, .stdinFlush,
            .closeWin .main, .setDone .main])
      ∨ (writeCount (visit k r o now d).2.1 = 0 ∧ readCount (visit k r o now d).2.1 = 0
          ∧ ((visit k r o now d).1.result = r.result
            ∨ ((visit k r o now d).1.result = .pyFalse ∧ (visit k r o now d).1.status = .done)
            ∨ (k ≠ .main ∧ (visit k r o now d).1.result = .pyTrue
                ∧ (visit k r o now d).1.status = .done)))) := by
  obtain ⟨st, res, rc⟩ := r
  rcases k with _ | _ | _ <;> rcases o with _ | _ | _ | _ | p
  case main.timeout =>
    simp only [visit, visitMain, onTimeout]
    split_ifs with h1 h2
    · exact ⟨fun _ => by show rc + 1 ≤ 2; omega, chunkGood_of_not_mem (by simp), by simp,
        by simp, fun ha hb => absurd (ha.symm.trans hb) Bool.false_ne_true,
        Or.inr ⟨rfl, rfl, Or.inl rfl⟩⟩
    · exact ⟨fun h => h, chunkGood_of_not_mem (by simp), by simp, by simp,
        fun _ _ => rfl, Or.inr ⟨rfl, rfl, Or.inr (Or.inl ⟨rfl, rfl⟩)⟩⟩
    · exact ⟨fun h => h, chunkGood_of_not_mem (by simp), by simp, by simp,
        fun _ _ => rfl, Or.inr ⟨rfl, rfl, Or.inr (Or.inl ⟨rfl, rfl⟩)⟩⟩
  case gen_lang.timeout =>
    simp only [visit, visitToS, onTimeout]
    split_ifs with h1 h2
    · exact ⟨fun _ => by show rc + 1 ≤ 2; omega, chunkGood_of_not_mem (by simp), by simp,
        by simp, fun ha hb => absurd (ha.symm.trans hb) Bool.false_ne_true,
        Or.inr ⟨rfl, rfl, Or.inl rfl⟩⟩
    · exact ⟨fun h => h, chunkGood_of_not_mem (by simp), by simp, by simp,
        fun _ _ => rfl, Or.inr ⟨rfl, rfl, Or.inr (Or.inl ⟨rfl, rfl⟩)⟩⟩
    · exact ⟨fun h => h, chunkGood_of_not_mem (by simp), by simp, by simp,
        fun _ _ => rfl, Or.inr ⟨rfl, rfl, Or.inr (Or.inl ⟨rfl, rfl⟩)⟩⟩
  case universal.timeout =>
    simp only [visit, visitToS, onTimeout]
    split_ifs with h1 h2
    · exact ⟨fun _ => by show rc + 1 ≤ 2; omega, chunkGood_of_not_mem (by simp), by simp,
        by simp, fun ha hb => absurd (ha.symm.trans hb) Bool.false_ne_true,
        Or.inr ⟨rfl, rfl, Or.inl rfl⟩⟩
    · exact ⟨fun h => h, chunkGood_of_not_mem (by simp), by simp, by simp,
        fun _ _ => rfl, Or.inr ⟨rfl, rfl, Or.inr (Or.inl ⟨rfl, rfl⟩)⟩⟩
    · exact ⟨fun h => h, chunkGood_of_not_mem (by simp), by simp, by simp,
        fun _ _ => rfl, Or.inr ⟨rfl, rfl, Or.inr (Or.inl ⟨rfl, rfl⟩)⟩⟩
  case main.probe =>
    rcases st with _ | _ | _ | _ | _ | _ | _ <;> rcases p with _ | _ | _ | s | _ | _ | _ <;>
      first
      | exact ⟨fun h => h, chunkGood_of_not_mem (by simp [visit, visitMain]),
          by simp [visit, visitMain], by simp [visit, visitMain],
          fun ha hb => absurd (ha.symm.trans hb) Bool.false_ne_true,
          Or.inr ⟨rfl, rfl, Or.inl rfl⟩⟩
      | (cases hsw : pyStartsWith "4/0" s
         · rw [show visit Key.main = visitMain from rfl, visitMain_code_neg hsw]
           exact ⟨fun h => h, chunkGood_nil, by simp, by simp,
             fun ha hb => absurd (ha.symm.trans hb) Bool.false_ne_true,
             Or.inr ⟨rfl, rfl, Or.inl rfl⟩⟩
         · rw [show visit Key.main = visitMain from rfl, visitMain_code_pos hsw]
           exact ⟨fun h => h, chunkGood_codeChunk s, by simp, by simp, fun _ _ => rfl,
             Or.inl ⟨rfl, rfl, s, rfl, hsw, rfl, rfl⟩⟩)
  case gen_lang.probe =>
    rcases st with _ | _ | _ | _ | _ | _ | _ <;> rcases p with _ | _ | _ | s | _ | _ | _ <;>
      first
      | exact ⟨fun h => h, chunkGood_of_not_mem (by simp [visit, visitToS]),
          by simp [visit, visitToS], by simp [visit, visitToS],
          fun ha hb => absurd (ha.symm.trans hb) Bool.false_ne_true,
          Or.inr ⟨rfl, rfl, Or.inl rfl⟩⟩
      | exact ⟨fun h => h, chunkGood_of_not_mem (by simp [visit, visitToS]),
          by simp [visit, visitToS], by simp [visit, visitToS],
          fun _ _ => rfl, Or.inr ⟨rfl, rfl, Or.inr (Or.inr ⟨by simp, rfl, rfl⟩)⟩⟩
  case universal.probe =>
    rcases st with _ | _ | _ | _ | _ | _ | _ <;> rcases p with _ | _ | _ | s | _ | _ | _ <;>
      first
      | exact ⟨fun h => h, chunkGood_of_not_mem (by simp [visit, visitToS]),
          by simp [visit, visitToS], by simp [visit, visitToS],
          fun ha hb => absurd (ha.symm.trans hb) Bool.false_ne_true,
          Or.inr ⟨rfl, rfl, Or.inl rfl⟩⟩
      | exact ⟨fun h => h, chunkGood_of_not_mem (by simp [visit, visitToS]),
          by simp [visit, visitToS], by simp [visit, visitToS],
          fun _ _ => rfl, Or.inr ⟨rfl, rfl, Or.inr (Or.inr ⟨by simp, rfl, rfl⟩)⟩⟩
  all_goals
    exact ⟨fun h => h, chunkGood_of_not_mem (by simp [visit, visitMain, visitToS]),
      by simp [visit, visitMain, visitToS], by simp [visit, visitMain, visitToS],
      fun ha hb => absurd (ha.symm.trans hb) Bool.false_ne_true,
      Or.inr ⟨rfl, rfl, Or.inl rfl⟩⟩

/-- The cross-pass invariant of the scheduler on the records and the
event trace. -/
structure Inv (tasks : Tasks) (trace : List Event) : Prop where
  rcLe : ∀ k, (tasks.get k).refresh_count ≤ 2
  truthyDone : ∀ k, ((tasks.get k).result).truthy = true → (tasks.get k).status = .done
  mainStr : ∀ s, (tasks.get .main).result = .str s →
    (tasks.get .main).status = .done ∧ pyStartsWith "4/0" s = true ∧
      Event.stdinWrite s ∈ trace
  mainNotTrue : (tasks.get .main).result ≠ .pyTrue
  tosNoStr : ∀ k, k ≠ Key.main → ∀ s, (tasks.get k).result ≠ .str s
  wEq : writeCount trace = mainStrFlag tasks
  rEq : readCount trace = writeCount trace
  noClose : Event.stdinClose ∉ trace
  noWait : Event.procWait ∉ trace
  good : chunkGood trace

theorem Inv_init : Inv initTasks [] := by
  refine ⟨?_, ?_, ?_, ?_, ?_, rfl, rfl, by simp, by simp, chunkGood_nil⟩
  · intro k; cases k <;> simp [initTasks, Tasks.get]
  · intro k; cases k <;> simp [initTasks, Tasks.get, PyVal.truthy]
  · intro s hs; exact absurd hs (by simp [initTasks, Tasks.get])
  · simp [initTasks, Tasks.get]
  · intro k hk s; cases k <;> simp [initTasks, Tasks.get]

theorem mainStrFlag_zero {t : Tasks} (h : ∀ s, (t.get .main).result ≠ .str s) :
    mainStrFlag t = 0 := by
  unfold mainStrFlag
  cases hr : t.tmain.result
  · rfl
  · rfl
  · rfl
  · exact absurd hr (h _)

theorem mainStrFlag_set_ne (t : Tasks) {k : Key} (r : TaskRec) (h : k ≠ Key.main) :
    mainStrFlag (t.set k r) = mainStrFlag t := by
  cases k
  · exact absurd rfl h
  · rfl
  · rfl

theorem mainStrFlag_set_main (t : Tasks) (r : TaskRec) :
    mainStrFlag (t.set .main r) =
      (match r.result with | PyVal.str _ => 1 | _ => 0) := rfl

theorem writeCount_codeChunk (s : String) :
    writeCount [Event.codeRead s, Event.stdinWrite s, Event.stdinFlush,
      Event.closeWin Key.main, Event.setDone Key.main] = 1 := rfl

theorem readCount_codeChunk (s : String) :
    readCount [Event.codeRead s, Event.stdinWrite s, Event.stdinFlush,
      Event.closeWin Key.main, Event.setDone Key.main] = 1 := rfl

/-- One visit performed on an active (not yet done) record preserves the
scheduler invariant. -/
theorem Inv_step {tasks : Tasks} {trace : List Event} (k : Key) (o : Obs) (now d : Nat)
    (hinv : Inv tasks trace) (hnd0 : (tasks.get k).status ≠ .done) :
    Inv (tasks.set k (visit k (tasks.get k) o now d).1)
        (trace ++ (visit k (tasks.get k) o now d).2.1) := by
  obtain ⟨hrc, hchunk, hncl, hnw, htr, hcase⟩ := visit_props k (tasks.get k) o now d
  have hresFalse : (tasks.get k).result.truthy = false := by
    cases htt : (tasks.get k).result.truthy
    · rfl
    · exact absurd (hinv.truthyDone k htt) hnd0
  have hMainOldNotStr : k = Key.main → ∀ s, (tasks.get .main).result ≠ .str s := by
    intro hk s hs
    exact absurd (hinv.mainStr s hs).1 (hk ▸ hnd0)
  rcases hcase with ⟨hkmain, _hst, s, _hobs, hsw, hv1, hevs⟩ | ⟨hw0, hr0, hres⟩
  · -- the code-capture visit of the main-flow record
    subst hkmain
    refine ⟨?_, ?_, ?_, ?_, ?_, ?_, ?_, ?_, ?_, ?_⟩
    · intro k'
      by_cases hk' : k' = Key.main
      · subst hk'; rw [Tasks.get_set_same, hv1]; exact hinv.rcLe _
      · rw [Tasks.get_set_ne _ _ hk']; exact hinv.rcLe k'
    · intro k'
      by_cases hk' : k' = Key.main
      · subst hk'; rw [Tasks.get_set_same, hv1]; intro _; rfl
      · rw [Tasks.get_set_ne _ _ hk']; exact hinv.truthyDone k'
    · intro s' hs'
      rw [Tasks.get_set_same] at hs' ⊢
      rw [hv1] at hs' ⊢
      have : s' = s := by
        have := hs'
        simp at this
        exact this.symm
      subst this
      exact ⟨rfl, hsw, by rw [hevs]; simp⟩
    · rw [Tasks.get_set_same, hv1]; simp
    · intro k' hk' s'
      rw [Tasks.get_set_ne _ _ hk']
      exact hinv.tosNoStr k' hk' s'
    · rw [writeCount_append, hevs, writeCount_codeChunk, hinv.wEq,
        mainStrFlag_zero (hMainOldNotStr rfl), mainStrFlag_set_main, hv1]
    · rw [readCount_append, writeCount_append, hevs, readCount_codeChunk,
        writeCount_codeChunk, hinv.rEq]
    · rw [List.mem_append]
      rintro (h | h)
      · exact hinv.noClose h
      · exact hncl h
    · rw [List.mem_append]
      rintro (h | h)
      · exact hinv.noWait h
      · exact hnw h
    · exact chunkGood_append hinv.good hchunk
  · -- a visit that performs no stdin write and no code read
    refine ⟨?_, ?_, ?_, ?_, ?_, ?_, ?_, ?_, ?_, ?_⟩
    · intro k'
      by_cases hk' : k' = k
      · subst hk'; rw [Tasks.get_set_same]; exact hrc (hinv.rcLe _)
      · rw [Tasks.get_set_ne _ _ hk']; exact hinv.rcLe k'
    · intro k'
      by_cases hk' : k' = k
      · subst hk'; rw [Tasks.get_set_same]; exact htr hresFalse
      · rw [Tasks.get_set_ne _ _ hk']; exact hinv.truthyDone k'
    · intro s' hs'
      by_cases hk : k = Key.main
      · subst hk
        rw [Tasks.get_set_same] at hs'
        rcases hres with hsame | ⟨hpf, _⟩ | ⟨hne, _, _⟩
        · rw [hsame] at hs'
          exact absurd hs' (hMainOldNotStr rfl s')
        · rw [hpf] at hs'; exact absurd hs' (by simp)
        · exact absurd rfl hne
      · rw [Tasks.get_set_ne _ _ (by simpa using Ne.symm hk)]
        obtain ⟨h1, h2, h3⟩ := hinv.mainStr s' (by
          rwa [Tasks.get_set_ne _ _ (by simpa using Ne.symm hk)] at hs')
        exact ⟨h1, h2, List.mem_append_left _ h3⟩
    · by_cases hk : k = Key.main
      · subst hk
        rw [Tasks.get_set_same]
        rcases hres with hsame | ⟨hpf, _⟩ | ⟨hne, _, _⟩
        · rw [hsame]; exact hinv.mainNotTrue
        · rw [hpf]; simp
        · exact absurd rfl hne
      · rw [Tasks.get_set_ne _ _ (by simpa using Ne.symm hk)]
        exact hinv.mainNotTrue
    · intro k' hk' s'
      by_cases hkk : k' = k
      · subst hkk
        rw [Tasks.get_set_same]
        rcases hres with hsame | ⟨hpf, _⟩ | ⟨_, hpt, _⟩
        · rw [hsame]; exact hinv.tosNoStr k' hk' s'
        · rw [hpf]; simp
        · rw [hpt]; simp
      · rw [Tasks.get_set_ne _ _ hkk]
        exact hinv.tosNoStr k' hk' s'
    · rw [writeCount_append, hw0, hinv.wEq]
      by_cases hk : k = Key.main
      · subst hk
        have hflag : mainStrFlag (tasks.set Key.main (visit Key.main (tasks.get Key.main) o now d).1)
            = mainStrFlag tasks := by
          rcases hres with hsame | ⟨hpf, _⟩ | ⟨hne, _, _⟩
          · rw [mainStrFlag_set_main, hsame]; rfl
          · rw [mainStrFlag_set_main, hpf, mainStrFlag_zero (hMainOldNotStr rfl)]
          · exact absurd rfl hne
        rw [hflag]
        exact Nat.add_zero _
      · rw [mainStrFlag_set_ne _ _ hk]
        exact Nat.add_zero _
    · rw [readCount_append, writeCount_append, hw0, hr0, hinv.rEq]
    · rw [List.mem_append]
      rintro (h | h)
      · exact hinv.noClose h
      · exact hncl h
    · rw [List.mem_append]
      rintro (h | h)
      · exact hinv.noWait h
      · exact hnw h
    · exact chunkGood_append hinv.good hchunk

/-- One full inner pass preserves the invariant; each record in the list
is visited exactly once, in order; a record is dropped from the active
list exactly when its status (after its own visit) is `done`; records not
in the list are untouched. -/
theorem passRec_inv (env : Env) (d : Nat) (l : List Key) :
    ∀ (tasks : Tasks) (trace : List Event) (visited : List Key) (ctr now : Nat),
      (∀ k ∈ l, (tasks.get k).status ≠ .done) → l.Nodup → Inv tasks trace →
      Inv (passRec env d l tasks trace visited ctr now).tasks
          (passRec env d l tasks trace visited ctr now).trace
      ∧ (passRec env d l tasks trace visited ctr now).active.Sublist l
      ∧ (∀ k, k ∉ l →
          (passRec env d l tasks trace visited ctr now).tasks.get k = tasks.get k)
      ∧ ((passRec env d l tasks trace visited ctr now).intr = false →
          ∀ k ∈ l, (((passRec env d l tasks trace visited ctr now).tasks.get k).status = .done
            ↔ k ∉ (passRec env d l tasks trace visited ctr now).active))
      ∧ ((passRec env d l tasks trace visited ctr now).intr = false →
          (passRec env d l tasks trace visited ctr now).visited = visited ++ l) := by
  induction l with
  | nil =>
    intro tasks trace visited ctr now _hl _hnd hinv
    refine ⟨hinv, List.Sublist.refl _, fun k _ => rfl, ?_, ?_⟩
    · intro _ k hk; exact absurd hk (List.not_mem_nil k)
    · intro _; simp [passRec]
  | cons k rest ih =>
    intro tasks trace visited ctr now hl hnd hinv
    have hnd0 : (tasks.get k).status ≠ .done := hl k (List.mem_cons_self k rest)
    have hknr : k ∉ rest := (List.nodup_cons.1 hnd).1
    have hndrest : rest.Nodup := (List.nodup_cons.1 hnd).2
    have hInv1 : Inv (tasks.set k (visit k (tasks.get k) (env.obs ctr) now d).1)
        (trace ++ (visit k (tasks.get k) (env.obs ctr) now d).2.1) :=
      Inv_step k (env.obs ctr) now d hinv hnd0
    have hrest : ∀ k' ∈ rest,
        ((tasks.set k (visit k (tasks.get k) (env.obs ctr) now d).1).get k').status ≠ .done := by
      intro k' hk'
      rw [Tasks.get_set_ne _ _ (fun he => hknr (by rwa [he] at hk'))]
      exact hl k' (List.mem_cons_of_mem k hk')
    rw [passRec]
    cases hb : (visit k (tasks.get k) (env.obs ctr) now d).2.2
    · simp only [hb, Bool.false_eq_true, if_false]
      obtain ⟨ihInv, ihSub, ihUnch, ihIff, ihVis⟩ :=
        ih (tasks.set k (visit k (tasks.get k) (env.obs ctr) now d).1)
          (trace ++ (visit k (tasks.get k) (env.obs ctr) now d).2.1)
          (visited ++ [k]) (ctr + 1) (now + env.dt ctr) hrest hndrest hInv1
      have hKfinal :
          (passRec env d rest (tasks.set k (visit k (tasks.get k) (env.obs ctr) now d).1)
              (trace ++ (visit k (tasks.get k) (env.obs ctr) now d).2.1)
              (visited ++ [k]) (ctr + 1) (now + env.dt ctr)).tasks.get k
            = (visit k (tasks.get k) (env.obs ctr) now d).1 := by
        rw [ihUnch k hknr, Tasks.get_set_same]
      have hKnotT : k ∉ (passRec env d rest
          (tasks.set k (visit k (tasks.get k) (env.obs ctr) now d).1)
          (trace ++ (visit k (tasks.get k) (env.obs ctr) now d).2.1)
          (visited ++ [k]) (ctr + 1) (now + env.dt ctr)).active :=
        fun hmem => hknr (ihSub.subset hmem)
      by_cases hdone : (visit k (tasks.get k) (env.obs ctr) now d).1.status = Status.done
      · simp only [hdone, if_true]
        refine ⟨ihInv, ihSub.trans (List.sublist_cons_self k rest), ?_, ?_, ?_⟩
        · intro k' hk'
          rw [ihUnch k' (fun h => hk' (List.mem_cons_of_mem k h)),
            Tasks.get_set_ne _ _ (fun he => hk' (by rw [he]; exact List.mem_cons_self k rest))]
        · intro hintr k' hk'
          rcases List.mem_cons.1 hk' with he | hmem
          · rw [he, hKfinal]
            exact ⟨fun _ => hKnotT, fun _ => hdone⟩
          · exact ihIff hintr k' hmem
        · intro hintr
          rw [ihVis hintr]
          simp
      · simp only [hdone, if_false]
        refine ⟨ihInv, List.Sublist.cons₂ k ihSub, ?_, ?_, ?_⟩
        · intro k' hk'
          rw [ihUnch k' (fun h => hk' (List.mem_cons_of_mem k h)),
            Tasks.get_set_ne _ _ (fun he => hk' (by rw [he]; exact List.mem_cons_self k rest))]
        · intro hintr k' hk'
          rcases List.mem_cons.1 hk' with he | hmem
          · rw [he, hKfinal]
            constructor
            · intro hcontra; exact absurd hcontra hdone
            · intro hnm; exact absurd (List.mem_cons_self _ _) hnm
          · have := ihIff hintr k' hmem
            rw [this]
            constructor
            · intro hnm hmem2
              rcases List.mem_cons.1 hmem2 with he2 | hmem3
              · exact hknr (he2 ▸ hmem)
              · exact hnm hmem3
            · intro hnm hmem2
              exact hnm (List.mem_cons_of_mem k hmem2)
        · intro hintr
          rw [ihVis hintr]
          simp
    · simp only [hb, if_true]
      refine ⟨hInv1, List.Sublist.refl _, ?_, ?_, ?_⟩
      · intro k' hk'
        exact Tasks.get_set_ne _ _ (fun he => hk' (by rw [he]; exact List.mem_cons_self k rest))
      · intro hintr; exact absurd hintr (by simp)
      · intro hintr; exact absurd hintr (by simp)

/-- The outer poll loop preserves the invariant; on a normal exit (no
interrupt, fuel not exhausted) either the deadline has passed or the
active list is empty; records outside the active list are `done` and
records inside are not. -/
theorem pollLoop_inv (env : Env) (d : Nat) :
    ∀ (fuel : Nat) (active : List Key) (tasks : Tasks) (trace : List Event) (ctr now : Nat),
      (∀ k ∈ active, (tasks.get k).status ≠ .done) →
      (∀ k, k ∉ active → (tasks.get k).status = .done) →
      active.Nodup → Inv tasks trace →
      Inv (pollLoop env d fuel active tasks trace ctr now).tasks
          (pollLoop env d fuel active tasks trace ctr now).trace
      ∧ ((pollLoop env d fuel active tasks trace ctr now).intr = false →
          (∀ k ∈ (pollLoop env d fuel active tasks trace ctr now).active,
              (((pollLoop env d fuel active tasks trace ctr now).tasks.get k)).status ≠ .done)
          ∧ (∀ k, k ∉ (pollLoop env d fuel active tasks trace ctr now).active →
              (((pollLoop env d fuel active tasks trace ctr now).tasks.get k)).status = .done))
      ∧ ((pollLoop env d fuel active tasks trace ctr now).intr = false →
          (pollLoop env d fuel active tasks trace ctr now).fuelOut = false →
          (d ≤ (pollLoop env d fuel active tasks trace ctr now).now
            ∨ (pollLoop env d fuel active tasks trace ctr now).active = [])) := by
  intro fuel
  induction fuel with
  | zero =>
    intro active tasks trace ctr now hact hinact _hnodup hinv
    exact ⟨hinv, fun _ => ⟨hact, hinact⟩, fun _ hf => absurd hf (by simp [pollLoop])⟩
  | succ fuel ih =>
    intro active tasks trace ctr now hact hinact hnodup hinv
    by_cases hlt : now < d
    · rcases hae : active with _ | ⟨a0, arest⟩
      · rw [pollLoop]
        rw [if_pos hlt]
        subst hae
        exact ⟨hinv, fun _ => ⟨hact, hinact⟩, fun _ _ => Or.inr rfl⟩
      · subst hae
        obtain ⟨pInv, pSub, pUnch, pIff, _pVis⟩ :=
          passRec_inv env d (a0 :: arest) tasks trace [] ctr now hact hnodup hinv
        rw [pollLoop, if_pos hlt]
        simp only [List.isEmpty_cons, Bool.false_eq_true, if_false]
        cases hpi : (passRec env d (a0 :: arest) tasks trace [] ctr now).intr
        · simp only [hpi, Bool.false_eq_true, if_false]
          have hact2 : ∀ k ∈ (passRec env d (a0 :: arest) tasks trace [] ctr now).active,
              (((passRec env d (a0 :: arest) tasks trace [] ctr now).tasks.get k)).status
                ≠ .done := by
            intro k hk
            have hkl : k ∈ a0 :: arest := pSub.subset hk
            intro hdone
            exact (pIff hpi k hkl).1 hdone hk
          have hinact2 : ∀ k, k ∉ (passRec env d (a0 :: arest) tasks trace [] ctr now).active →
              (((passRec env d (a0 :: arest) tasks trace [] ctr now).tasks.get k)).status
                = .done := by
            intro k hk
            by_cases hkl : k ∈ a0 :: arest
            · exact (pIff hpi k hkl).2 hk
            · rw [pUnch k hkl]
              exact hinact k hkl
          exact ih (passRec env d (a0 :: arest) tasks trace [] ctr now).active
            (passRec env d (a0 :: arest) tasks trace [] ctr now).tasks
            (passRec env d (a0 :: arest) tasks trace [] ctr now).trace
            ((passRec env d (a0 :: arest) tasks trace [] ctr now).ctr + 1)
            ((passRec env d (a0 :: arest) tasks trace [] ctr now).now
              + env.dt (passRec env d (a0 :: arest) tasks trace [] ctr now).ctr)
            hact2 hinact2 (hnodup.sublist pSub) pInv
        · simp only [hpi, if_true]
          exact ⟨pInv, fun hc => absurd hc (by simp), fun hc => absurd hc (by simp)⟩
    · rw [pollLoop, if_neg hlt]
      exact ⟨hinv, fun _ => ⟨hact, hinact⟩, fun _ _ => Or.inl (Nat.le_of_not_lt hlt)⟩

theorem allDone_iff (t : Tasks) :
    allDone t = true ↔ (t.tmain.status = Status.done ∧ t.tgen.status = Status.done
      ∧ t.tuni.status = Status.done) := by
  simp [allDone]

theorem allTruthy_iff (t : Tasks) :
    allTruthy t = true ↔ (t.tmain.result.truthy = true ∧ t.tgen.result.truthy = true
      ∧ t.tuni.result.truthy = true) := by
  simp [allTruthy, and_assoc]

theorem mainStrFlag_le_one (t : Tasks) : mainStrFlag t ≤ 1 := by
  unfold mainStrFlag
  cases t.tmain.result <;> simp

/-- Full case analysis of the post-loop checks (lines 549-567). -/
theorem finalChecks_spec (t : Tasks) (now d : Nat) :
    (finalChecks t now d = .ok → allTruthy t = true ∧ (allDone t = true ∨ now < d))
    ∧ (∀ ns, finalChecks t now d = .errNames ns →
        ns = falsyNames t ∧ allTruthy t = false ∧ (allDone t = true ∨ now < d))
    ∧ (finalChecks t now d = .errTimeout → allDone t = false ∧ d ≤ now)
    ∧ (finalChecks t now d = .errRuntimeNoNames → allDone t = false ∧ now < d)
    ∧ (allDone t = true → allTruthy t = true → finalChecks t now d = .ok)
    ∧ finalChecks t now d ≠ .interrupted ∧ finalChecks t now d ≠ .fuelOut := by
  unfold finalChecks resultsCheck
  split_ifs with h1 h2 h3 h4 h5
  · exact ⟨fun _ => ⟨h2, Or.inl h1⟩, fun ns => nofun, nofun, nofun,
      fun _ _ => rfl, nofun, nofun⟩
  · refine ⟨nofun, ?_, nofun, nofun,
      fun _ hT => absurd hT (by simp [h2]), nofun, nofun⟩
    intro ns h
    exact ⟨(PhaseOutcome.errNames.inj h).symm, by simpa using h2, Or.inl h1⟩
  · exact ⟨nofun, fun ns => nofun, fun _ => ⟨by simpa using h1, h3⟩, nofun,
      fun hD _ => absurd hD (by simp [h1]), nofun, nofun⟩
  · exact ⟨fun _ => ⟨h5, Or.inr (Nat.lt_of_not_le h3)⟩, fun ns => nofun, nofun, nofun,
      fun hD => absurd hD (by simp [h1]), nofun, nofun⟩
  · refine ⟨nofun, ?_, nofun, nofun,
      fun hD => absurd hD (by simp [h1]), nofun, nofun⟩
    intro ns h
    exact ⟨(PhaseOutcome.errNames.inj h).symm, by simpa using h5,
      Or.inr (Nat.lt_of_not_le h3)⟩
  · exact ⟨nofun, fun ns => nofun, nofun,
      fun _ => ⟨by simpa using h1, Nat.lt_of_not_le h3⟩,
      fun hD => absurd hD (by simp [h1]), nofun, nofun⟩

/-- Everything the claims need about a whole run of the browser poll
phase, derived from the loop invariant and the final-check analysis. -/
theorem browserPhase_cases (env : Env) (d fuel : Nat) :
    chunkGood (browserPhase env d fuel).trace
    ∧ writeCount (browserPhase env d fuel).trace = mainStrFlag (browserPhase env d fuel).tasks
    ∧ readCount (browserPhase env d fuel).trace = writeCount (browserPhase env d fuel).trace
    ∧ (∀ k, (((browserPhase env d fuel).tasks.get k)).refresh_count ≤ 2)
    ∧ ((browserPhase env d fuel).outcome = .ok →
        ∃ t0, (browserPhase env d fuel).trace = t0 ++ [Event.stdinClose, Event.procWait]
          ∧ Event.stdinClose ∉ t0 ∧ Event.procWait ∉ t0 ∧ writeCount t0 = 1
          ∧ allDone (browserPhase env d fuel).tasks = true
          ∧ allTruthy (browserPhase env d fuel).tasks = true
          ∧ (browserPhase env d fuel).active = [])
    ∧ ((browserPhase env d fuel).outcome ≠ .ok →
        Event.stdinClose ∉ (browserPhase env d fuel).trace
        ∧ Event.procWait ∉ (browserPhase env d fuel).trace)
    ∧ (∀ ns, (browserPhase env d fuel).outcome = .errNames ns →
        ns = falsyNames (browserPhase env d fuel).tasks
        ∧ allDone (browserPhase env d fuel).tasks = true
        ∧ allTruthy (browserPhase env d fuel).tasks = false)
    ∧ ((browserPhase env d fuel).outcome = .errTimeout →
        allDone (browserPhase env d fuel).tasks = false)
    ∧ (browserPhase env d fuel).outcome ≠ .errRuntimeNoNames
    ∧ ((browserPhase env d fuel).outcome ≠ .interrupted →
        (browserPhase env d fuel).outcome ≠ .fuelOut →
        allDone (browserPhase env d fuel).tasks = true →
        allTruthy (browserPhase env d fuel).tasks = true →
        (browserPhase env d fuel).outcome = .ok) := by
  have hact0 : ∀ k ∈ [Key.main, Key.gen_lang, Key.universal],
      (initTasks.get k).status ≠ .done := by decide
  have hinact0 : ∀ k, k ∉ [Key.main, Key.gen_lang, Key.universal] →
      (initTasks.get k).status = .done := by
    intro k hk; exact absurd (by cases k <;> simp) hk
  have hnodup0 : ([Key.main, Key.gen_lang, Key.universal]).Nodup := by decide
  obtain ⟨LInv, hActs, hExit⟩ := pollLoop_inv env d fuel
    [Key.main, Key.gen_lang, Key.universal] initTasks [] 0 0 hact0 hinact0 hnodup0 Inv_init
  unfold browserPhase
  set L := pollLoop env d fuel [Key.main, Key.gen_lang, Key.universal] initTasks [] 0 0
    with hLdef
  have hTruthyImpDone : allTruthy L.tasks = true → allDone L.tasks = true := by
    intro hT
    obtain ⟨h1, h2, h3⟩ := (allTruthy_iff L.tasks).1 hT
    exact (allDone_iff L.tasks).2
      ⟨LInv.truthyDone .main h1, LInv.truthyDone .gen_lang h2, LInv.truthyDone .universal h3⟩
  have hFlagOne : allTruthy L.tasks = true → mainStrFlag L.tasks = 1 := by
    intro hT
    obtain ⟨h1, _h2, _h3⟩ := (allTruthy_iff L.tasks).1 hT
    unfold mainStrFlag
    cases hmr : L.tasks.tmain.result
    · rw [hmr] at h1
      exact absurd h1 (by simp [PyVal.truthy])
    · rw [hmr] at h1
      exact absurd h1 (by simp [PyVal.truthy])
    · exact absurd hmr LInv.mainNotTrue
    · rfl
  cases hIntr : L.intr
  · cases hFuel : L.fuelOut
    · simp only [hIntr, hFuel, Bool.false_eq_true, if_false]
      obtain ⟨hActNe, hInact⟩ := hActs hIntr
      have hEmptyDone : L.active = [] → allDone L.tasks = true := by
        intro he
        refine (allDone_iff L.tasks).2 ⟨?_, ?_, ?_⟩
        · exact hInact .main (by simp [he])
        · exact hInact .gen_lang (by simp [he])
        · exact hInact .universal (by simp [he])
      have hDoneEmpty : allDone L.tasks = true → L.active = [] := by
        intro hD
        obtain ⟨h1, h2, h3⟩ := (allDone_iff L.tasks).1 hD
        rcases hne : L.active with _ | ⟨a0, arest⟩
        · rfl
        · exfalso
          have : a0 ∈ L.active := by rw [hne]; exact List.mem_cons_self _ _
          have hnd := hActNe a0 this
          cases a0
          · exact hnd h1
          · exact hnd h2
          · exact hnd h3
      obtain ⟨fcOk, fcNames, fcTO, fcNoNames, fcDoneOk, fcNi, fcNf⟩ :=
        finalChecks_spec L.tasks L.now d
      have hOrDone : (allDone L.tasks = true ∨ L.now < d) → allDone L.tasks = true := by
        rintro (h | h)
        · exact h
        · rcases hExit hIntr hFuel with hle | hemp
          · omega
          · exact hEmptyDone hemp
      cases hfc : finalChecks L.tasks L.now d
      · -- ok
        refine ⟨?_, ?_, ?_, LInv.rcLe, ?_, fun hno => absurd rfl hno, fun ns => nofun,
          nofun, nofun, fun _ _ _ _ => rfl⟩
        · exact chunkGood_append LInv.good (chunkGood_of_not_mem (by simp))
        · rw [writeCount_append, LInv.wEq]
          rfl
        · rw [readCount_append, writeCount_append, LInv.rEq]
          rfl
        · intro _
          obtain ⟨hT, hOr⟩ := fcOk hfc
          have hD : allDone L.tasks = true := hOrDone hOr
          exact ⟨L.trace, rfl, LInv.noClose, LInv.noWait, by rw [LInv.wEq]; exact hFlagOne hT,
            hD, hT, hDoneEmpty hD⟩
      · exact absurd hfc fcNi
      · exact absurd hfc fcNf
      · -- errTimeout
        refine ⟨LInv.good, LInv.wEq, LInv.rEq, LInv.rcLe, nofun,
          fun _ => ⟨LInv.noClose, LInv.noWait⟩, fun ns => nofun,
          fun _ => (fcTO hfc).1, nofun, ?_⟩
        intro _ _ hD _
        exact absurd hD (by simp [(fcTO hfc).1])
      · -- errRuntimeNoNames: unreachable
        exfalso
        obtain ⟨hnD, hlt⟩ := fcNoNames hfc
        rcases hExit hIntr hFuel with hle | hemp
        · omega
        · exact absurd (hEmptyDone hemp) (by simp [hnD])
      · -- errNames ns0
        rename_i ns0
        obtain ⟨hns, hTf, hOr⟩ := fcNames ns0 hfc
        have hD := hOrDone hOr
        refine ⟨LInv.good, LInv.wEq, LInv.rEq, LInv.rcLe, nofun,
          fun _ => ⟨LInv.noClose, LInv.noWait⟩, ?_, nofun, nofun, ?_⟩
        · intro ns h
          exact ⟨(PhaseOutcome.errNames.inj h).symm.trans hns, hD, hTf⟩
        · intro _ _ _ hT
          exact absurd hT (by simp [hTf])
    · simp only [hIntr, hFuel, Bool.false_eq_true, if_false, if_true]
      exact ⟨LInv.good, LInv.wEq, LInv.rEq, LInv.rcLe, nofun,
        fun _ => ⟨LInv.noClose, LInv.noWait⟩, fun ns => nofun, nofun, nofun,
        fun _ hf => absurd rfl hf⟩
  · simp only [hIntr, if_true]
    exact ⟨LInv.good, LInv.wEq, LInv.rEq, LInv.rcLe, nofun,
      fun _ => ⟨LInv.noClose, LInv.noWait⟩, fun ns => nofun, nofun, nofun,
      fun hi => absurd rfl hi⟩

/-- Prepend the already-kept prefix of the active list to a pass result. -/
def mergeTake (pre : List Key) (p : PassOut) : PassOut := { p with active := pre ++ p.active }

/-- The literal index-driven while loop of lines 413-543 equals the
structural pass: at index `i` it behaves like processing `active.drop i`
with the kept prefix `active.take i` untouched in place. -/
theorem innerLoopAux_eq_passRec (env : Env) (d : Nat) :
    ∀ (n i : Nat) (active : List Key) (tasks : Tasks) (trace : List Event)
      (visited : List Key) (ctr now : Nat),
      active.length ≤ i + n →
      innerLoopAux env d i active tasks trace visited ctr now
        = mergeTake (active.take i)
            (passRec env d (active.drop i) tasks trace visited ctr now) := by
  intro n
  induction n with
  | zero =>
    intro i active tasks trace visited ctr now hle
    rw [innerLoopAux, dif_neg (by omega : ¬ i < active.length),
      List.drop_eq_nil_of_le (by omega), passRec]
    simp [mergeTake, List.take_of_length_le (by omega : active.length ≤ i)]
  | succ n ihn =>
    intro i active tasks trace visited ctr now hle
    by_cases h : i < active.length
    · have hidx : active.drop i = active.get ⟨i, h⟩ :: active.drop (i + 1) := by
        rw [List.drop_eq_getElem_cons h]
        rfl
      rw [innerLoopAux, dif_pos h, hidx, passRec]
      simp only []
      cases hb : (visit (active.get ⟨i, h⟩) (tasks.get (active.get ⟨i, h⟩))
          (env.obs ctr) now d).2.2
      · simp only [hb, Bool.false_eq_true, if_false]
        by_cases hdone : (visit (active.get ⟨i, h⟩) (tasks.get (active.get ⟨i, h⟩))
            (env.obs ctr) now d).1.status = Status.done
        · simp only [hdone, if_true]
          rw [ihn i (active.eraseIdx i) _ _ _ _ _
            (by rw [List.length_eraseIdx_of_lt h]; omega)]
          have htk : (active.eraseIdx i).take i = active.take i := by
            rw [List.eraseIdx_eq_take_drop_succ]
            exact List.take_left' (by
              rw [List.length_take]
              omega)
          have hdr : (active.eraseIdx i).drop i = active.drop (i + 1) := by
            rw [List.eraseIdx_eq_take_drop_succ]
            exact List.drop_left' (by
              rw [List.length_take]
              omega)
          rw [htk, hdr]
        · simp only [hdone, if_false]
          rw [ihn (i + 1) active _ _ _ _ _ (by omega)]
          have htk : active.take (i + 1) = active.take i ++ [active.get ⟨i, h⟩] := by
            rw [List.take_succ, List.getElem?_eq_getElem h]
            rfl
          rw [htk]
          simp only [mergeTake, List.append_assoc, List.singleton_append]
      · simp only [hb, if_true]
        simp only [mergeTake]
        have : active.take i ++ (active.get ⟨i, h⟩ :: active.drop (i + 1)) = active := by
          rw [← hidx, List.take_append_drop]
        rw [this]
    · rw [innerLoopAux, dif_neg h,
        List.drop_eq_nil_of_le (by omega), passRec]
      simp [mergeTake, List.take_of_length_le (by omega : active.length ≤ i)]

/-- Pure loop mechanics of one pass (no scheduler invariant needed):
the output active list is a sublist, unvisited records are untouched, on a
non-interrupted pass every record is visited exactly once in list order,
and (for a duplicate-free list of not-yet-done records) a record is
dropped exactly when its status after its own visit is done. -/
theorem passRec_mech (env : Env) (d : Nat) (l : List Key) :
    ∀ (tasks : Tasks) (trace : List Event) (visited : List Key) (ctr now : Nat),
      (passRec env d l tasks trace visited ctr now).active.Sublist l
      ∧ (∀ k, k ∉ l →
          (passRec env d l tasks trace visited ctr now).tasks.get k = tasks.get k)
      ∧ ((passRec env d l tasks trace visited ctr now).intr = false →
          (passRec env d l tasks trace visited ctr now).visited = visited ++ l)
      ∧ (l.Nodup → (∀ k ∈ l, (tasks.get k).status ≠ .done) →
          (passRec env d l tasks trace visited ctr now).intr = false →
          ∀ k ∈ l, (((passRec env d l tasks trace visited ctr now).tasks.get k).status = .done
            ↔ k ∉ (passRec env d l tasks trace visited ctr now).active)) := by
  induction l with
  | nil =>
    intro tasks trace visited ctr now
    exact ⟨List.Sublist.refl _, fun k _ => rfl, fun _ => by simp [passRec],
      fun _ _ _ k hk => absurd hk (List.not_mem_nil k)⟩
  | cons k rest ih =>
    intro tasks trace visited ctr now
    rw [passRec]
    cases hb : (visit k (tasks.get k) (env.obs ctr) now d).2.2
    · simp only [hb, Bool.false_eq_true, if_false]
      obtain ⟨ihSub, ihUnch, ihVis, ihIff⟩ :=
        ih (tasks.set k (visit k (tasks.get k) (env.obs ctr) now d).1)
          (trace ++ (visit k (tasks.get k) (env.obs ctr) now d).2.1)
          (visited ++ [k]) (ctr + 1) (now + env.dt ctr)
      by_cases hdone : (visit k (tasks.get k) (env.obs ctr) now d).1.status = Status.done
      · simp only [hdone, if_true]
        refine ⟨ihSub.trans (List.sublist_cons_self k rest), ?_, ?_, ?_⟩
        · intro k' hk'
          rw [ihUnch k' (fun h => hk' (List.mem_cons_of_mem k h)),
            Tasks.get_set_ne _ _ (fun he => hk' (by rw [he]; exact List.mem_cons_self k rest))]
        · intro hintr
          rw [ihVis hintr]; simp
        · intro hnodup _hl hintr k' hk'
          have hknr : k ∉ rest := (List.nodup_cons.1 hnodup).1
          rcases List.mem_cons.1 hk' with he | hmem
          · rw [he, ihUnch k hknr, Tasks.get_set_same]
            exact ⟨fun _ hmem2 => hknr (ihSub.subset hmem2), fun _ => hdone⟩
          · exact ihIff (List.nodup_cons.1 hnodup).2
              (fun k2 hk2 => by
                rw [Tasks.get_set_ne _ _ (fun he2 => hknr (by rw [← he2]; exact hk2))]
                exact _hl k2 (List.mem_cons_of_mem k hk2))
              hintr k' hmem
      · simp only [hdone, if_false]
        refine ⟨List.Sublist.cons₂ k ihSub, ?_, ?_, ?_⟩
        · intro k' hk'
          rw [ihUnch k' (fun h => hk' (List.mem_cons_of_mem k h)),
            Tasks.get_set_ne _ _ (fun he => hk' (by rw [he]; exact List.mem_cons_self k rest))]
        · intro hintr
          rw [ihVis hintr]; simp
        · intro hnodup hl hintr k' hk'
          have hknr : k ∉ rest := (List.nodup_cons.1 hnodup).1
          rcases List.mem_cons.1 hk' with he | hmem
          · rw [he, ihUnch k hknr, Tasks.get_set_same]
            constructor
            · intro hc; exact absurd hc hdone
            · intro hnm; exact absurd (List.mem_cons_self _ _) hnm
          · have hiff := ihIff (List.nodup_cons.1 hnodup).2
              (fun k2 hk2 => by
                rw [Tasks.get_set_ne _ _ (fun he2 => hknr (by rw [← he2]; exact hk2))]
                exact hl k2 (List.mem_cons_of_mem k hk2))
              hintr k' hmem
            rw [hiff]
            constructor
            · intro hnm hmem2
              rcases List.mem_cons.1 hmem2 with he2 | hmem3
              · exact hknr (by rw [← he2]; exact hmem)
              · exact hnm hmem3
            · intro hnm hmem2
              exact hnm (List.mem_cons_of_mem k hmem2)
    · simp only [hb, if_true]
      exact ⟨List.Sublist.refl _,
        fun k' hk' =>
          Tasks.get_set_ne _ _ (fun he => hk' (by rw [he]; exact List.mem_cons_self k rest)),
        fun hintr => absurd hintr (by simp),
        fun _ _ hintr => absurd hintr (by simp)⟩

/-- Environment for the C1 witness: the main window shows the code. -/
def envC1w : Env := ⟨fun _ => .probe (.codeElem "4/0w"), fun _ => 0⟩

/-- Environment for the C2 witness: a full happy-path run. -/
def envC2ok : Env :=
  ⟨fun n =>
    match n with
    | 0 => .probe .continueBtn
    | 1 => .probe .acceptBtn
    | 2 => .probe .acceptBtn
    | 4 => .probe .allowBtn
    | 5 => .probe .alreadyText
    | 6 => .probe .alreadyText
    | 8 => .probe (.codeElem "4/0abc")
    | _ => .probe .nothing,
   fun _ => 1⟩

/-- Environment for the C2 counterexample: the code is captured but the
consent windows never progress and the deadline then expires. -/
def envC2to : Env :=
  ⟨fun n =>
    match n with
    | 0 => .probe .continueBtn
    | 4 => .probe .allowBtn
    | 8 => .probe (.codeElem "4/0x")
    | _ => .probe .nothing,
   fun n => if n = 11 then 200 else 0⟩

/-- Environment for the C4 witness: the main flow completes, both consent
records exhaust their refresh budget on timeouts and are failed. -/
def envC4n : Env :=
  ⟨fun n =>
    match n with
    | 0 => .probe .continueBtn
    | 4 => .probe .allowBtn
    | 8 => .probe (.codeElem "4/0z")
    | 1 | 2 | 5 | 6 | 9 | 10 => .timeout
    | _ => .probe .nothing,
   fun _ => 0⟩

/-- Environment for the C4 counterexample: nothing progresses and the
deadline expires after the first pass. -/
def envC4to : Env := ⟨fun _ => .probe .nothing, fun n => if n = 3 then 200 else 0⟩

/-- Environment for the C10 witness: uneventful probes. -/
def envC10 : Env := ⟨fun _ => .probe .nothing, fun _ => 0⟩

/-! ### Claim theorems -/

/-- C5 (code bug): when none of the three markers appears within the
allotted wait, `wait_and_check_stop` raises the builtin `TimeoutError`,
which the `except TimeoutException` clause at line 356 does not catch, so
no `VerificationRequiredException` is raised — the outer handler turns the
run into a `False` return instead, and `robust_retry` would see no
exception at all.  The other half of the claim does hold: a found marker
that is not the password field raises `VerificationRequiredException`,
the outer handler re-raises it, and `robust_retry` never retries it
(exactly one call). -/
theorem C5_verification_exception_bug :
    step2_branch (wacs_blocking false none) = .error .timeoutError
    ∧ step2_branch (wacs_blocking false none) ≠ .error .verificationRequired
    ∧ outer_dispatch (.error .timeoutError) = .ok false
    ∧ step2_branch (wacs_blocking false (some .robotMarker)) = .error .verificationRequired
    ∧ step2_branch (wacs_blocking false (some .twoStepMarker)) = .error .verificationRequired
    ∧ step2_branch (wacs_blocking false (some .passwordField)) = .ok ()
    ∧ outer_dispatch (.error .verificationRequired) = .error .verificationRequired
    ∧ robust_retry 3 (fun _ => false) false
        (fun _ => (.error .verificationRequired : Except PyExc Bool))
      = (some (.error .verificationRequired), 1)
    ∧ unrecoverable .verificationRequired = true := by
  refine ⟨rfl, ?_, rfl, rfl, rfl, rfl, rfl, rfl, rfl⟩
  intro h
  exact absurd (Except.error.inj h) (by decide)

/-- C6 (amended): only the authorization-URL wait (line 245) derives its
timeout from the deadline, as min(GCLOUD_AUTH_URL_TIMEOUT, max(0.1,
deadline - now)) — in particular it never exceeds max(0.1, deadline-now);
`wait_and_check_stop` blocks until now + local_timeout with no deadline
term (line 307); and the subprocess wait uses the fixed 10-second timeout
(line 581). -/
theorem C6_wait_timeout_shapes (deadline now tl : ℚ) :
    auth_wait_timeout deadline now ≤ max (1/10) (deadline - now)
    ∧ auth_wait_timeout deadline now ≤ GCLOUD_AUTH_URL_TIMEOUT
    ∧ wacs_end_time now tl = now + tl
    ∧ gcloud_wait_timeout = 10 :=
  ⟨min_le_right _ _, min_le_left _ _, rfl, rfl⟩

/-- C6 counterexample: with 5 seconds left before the deadline, the
element-visibility wait still runs until now + 20, i.e. 15 seconds past
the deadline; its timeout is not min(local, deadline - now), and neither
is the subprocess wait's fixed 10. -/
theorem C6_counterexample :
    wacs_end_time 0 ELEMENT_VISIBILITY_TIMEOUT = 20
    ∧ (5 : ℚ) < wacs_end_time 0 ELEMENT_VISIBILITY_TIMEOUT
    ∧ ELEMENT_VISIBILITY_TIMEOUT ≠ min ELEMENT_VISIBILITY_TIMEOUT ((5 : ℚ) - 0)
    ∧ gcloud_wait_timeout ≠ min gcloud_wait_timeout ((5 : ℚ) - 0) := by
  refine ⟨?_, ?_, ?_, ?_⟩ <;>
    norm_num [wacs_end_time, ELEMENT_VISIBILITY_TIMEOUT, gcloud_wait_timeout]

/-- C8 (amended): cleanup_resources severs the driver on the first call,
nulls and kills the process exactly when it was still running (a process
object that already exited is left in place, though no termination is ever
re-attempted on it), a second call changes nothing and performs no
process-termination action, and the finally block of
perform_login_automation runs cleanup on every exit path. -/
theorem C8_cleanup_idempotent (s : CleanupState) (body : Except PyExc Bool) :
    (cleanup_resources s).1.driver = none
    ∧ (s.processRunning = some true → (cleanup_resources s).1.processRunning = none)
    ∧ (cleanup_resources (cleanup_resources s).1).1 = (cleanup_resources s).1
    ∧ (∀ a ∈ (cleanup_resources (cleanup_resources s).1).2, a = CleanAct.joinStderr)
    ∧ (perform_login_automation body s).2.1 = (cleanup_resources s).1
    ∧ (perform_login_automation body s).2.2 = (cleanup_resources s).2 := by
  obtain ⟨dr, pr, st⟩ := s
  rcases dr with _ | d <;> rcases pr with _ | (_ | _) <;> cases st <;>
    refine ⟨rfl, ?_, rfl, ?_, rfl, rfl⟩ <;>
    first
    | (intro h; rfl)
    | (intro h; simp at h)
    | (intro a ha; simp [cleanup_resources] at ha; exact ha)
    | (intro a ha; simp [cleanup_resources] at ha)

/-- C8 witness: a state with a live driver and a running process: the
first call nulls both. -/
theorem C8_cleanup_idempotent_witness :
    (cleanup_resources ⟨some ⟨some 11, some 12⟩, some true, true⟩).1.processRunning
      = none :=
  (C8_cleanup_idempotent ⟨some ⟨some 11, some 12⟩, some true, true⟩ (.ok true)).2.1 rfl

/-- C8 counterexample: when the gcloud process object exists but has
already exited, the first cleanup call leaves `process` non-null — the
`finally: process = None` runs only inside the kill branch — refuting the
claim's "a first call nulls out driver and process" as stated. -/
theorem C8_counterexample :
    (cleanup_resources ⟨some ⟨some 11, some 12⟩, some false, false⟩).1.processRunning
      = some false
    ∧ some false ≠ (none : Option Bool) :=
  ⟨rfl, by simp⟩

/-- C9: perform_login_automation yields a boolean for every try-block
outcome except exactly VerificationRequiredException, which re-raises;
every other Exception becomes a False return; and the cleanup of the
finally block runs in every case. -/
theorem C9_exception_policy (body : Except PyExc Bool) (s : CleanupState) :
    (∀ e, (perform_login_automation body s).1 = .error e →
        e = .verificationRequired ∧ body = .error .verificationRequired)
    ∧ (∀ e, e ≠ PyExc.verificationRequired →
        (perform_login_automation (.error e) s).1 = .ok false)
    ∧ (∀ b, body = .ok b → (perform_login_automation body s).1 = .ok b)
    ∧ (perform_login_automation body s).2.1 = (cleanup_resources s).1
    ∧ (perform_login_automation body s).2.2 = (cleanup_resources s).2 := by
  refine ⟨?_, ?_, ?_, rfl, rfl⟩
  · intro e he
    cases body with
    | ok b =>
      exact absurd he (by simp [perform_login_automation, outer_dispatch])
    | error e' =>
      by_cases h' : e' = PyExc.verificationRequired
      · subst h'
        refine ⟨?_, rfl⟩
        have he2 : (Except.error PyExc.verificationRequired : Except PyExc Bool)
            = .error e := he
        exact (Except.error.inj he2).symm
      · exact absurd he (by simp [perform_login_automation, outer_dispatch, h'])
  · intro e he
    simp [perform_login_automation, outer_dispatch, he]
  · intro b hb
    subst hb
    rfl

/-- C9 witness: an InterruptedError raised inside the try block is caught
and converted into a False return. -/
theorem C9_exception_policy_witness :
    (perform_login_automation (.error .interruptedError) ⟨none, none, false⟩).1
      = .ok false :=
  (C9_exception_policy (.error .interruptedError) ⟨none, none, false⟩).2.1
    .interruptedError (by decide)

/-- C7: with the stop event never set, try_step executes the supplied
action and returns True as soon as some attempt leaves the current URL
containing the expected part (navigating back between attempts), performs
at most max_retries attempts in total (the returned count is the number of
action executions), finds the first successful attempt, and returns False
after exhausting all attempts when every attempt leaves the URL without
the substring. -/
theorem C7_try_step_contract {S : Type} (stop : S → Bool) (action back : S → S)
    (current_url : S → String) (part : String) (maxRetries : Nat) (s : S)
    (hstop : ∀ u, stop u = false) :
    ((try_step stop action back current_url part maxRetries s).2 ≤ maxRetries)
    ∧ ((try_step stop action back current_url part maxRetries s).1 = true ↔
        ∃ j < maxRetries,
          pyIn part (current_url (action ((fun u => back (action u))^[j] s))) = true)
    ∧ ((try_step stop action back current_url part maxRetries s).1 = true →
        1 ≤ (try_step stop action back current_url part maxRetries s).2
        ∧ pyIn part (current_url (action ((fun u => back (action u))^[
            (try_step stop action back current_url part maxRetries s).2 - 1] s))) = true
        ∧ ∀ j < (try_step stop action back current_url part maxRetries s).2 - 1,
            pyIn part (current_url (action ((fun u => back (action u))^[j] s))) = false)
    ∧ ((try_step stop action back current_url part maxRetries s).1 = false →
        (try_step stop action back current_url part maxRetries s).2 = maxRetries
        ∧ ∀ j < maxRetries,
            pyIn part (current_url (action ((fun u => back (action u))^[j] s))) = false) := by
  induction maxRetries generalizing s with
  | zero =>
    refine ⟨Nat.le_refl 0, ?_, ?_, ?_⟩
    · constructor
      · intro h; exact absurd h (by simp [try_step])
      · rintro ⟨j, hj, _⟩; exact absurd hj (Nat.not_lt_zero j)
    · intro h; exact absurd h (by simp [try_step])
    · intro _; exact ⟨rfl, fun j hj => absurd hj (Nat.not_lt_zero j)⟩
  | succ m ih =>
    have hg : ∀ j, (fun u => back (action u))^[j] (back (action s))
        = (fun u => back (action u))^[j + 1] s := by
      intro j
      rw [Function.iterate_succ_apply]
    by_cases hurl : pyIn part (current_url (action s)) = true
    · have hres : try_step stop action back current_url part (m + 1) s = (true, 1) := by
        rw [try_step, hstop s]
        simp [hurl]
      rw [hres]
      refine ⟨by omega, ?_, ?_, ?_⟩
      · exact ⟨fun _ => ⟨0, by omega, by simpa using hurl⟩, fun _ => rfl⟩
      · intro _
        exact ⟨Nat.le_refl 1, by simpa using hurl, fun j hj => absurd hj (by omega)⟩
      · intro h; exact absurd h (by simp)
    · have hres : try_step stop action back current_url part (m + 1) s
          = ((try_step stop action back current_url part m (back (action s))).1,
             (try_step stop action back current_url part m (back (action s))).2 + 1) := by
        rw [try_step, hstop s]
        simp [hurl]
      obtain ⟨ihB, ihIff, ihSucc, ihFail⟩ := ih (back (action s))
      rw [hres]
      refine ⟨by omega, ?_, ?_, ?_⟩
      · constructor
        · intro h
          obtain ⟨j, hj, hP⟩ := ihIff.1 h
          exact ⟨j + 1, by omega, by rwa [hg j] at hP⟩
        · rintro ⟨j, hj, hP⟩
          rcases j with _ | j'
          · exact absurd hP (by simpa using hurl)
          · exact ihIff.2 ⟨j', by omega, by rwa [← hg j'] at hP⟩
      · intro h
        obtain ⟨h1, h2, h3⟩ := ihSucc h
        refine ⟨by omega, ?_, ?_⟩
        · have : (try_step stop action back current_url part m (back (action s))).2 + 1 - 1
              = ((try_step stop action back current_url part m (back (action s))).2 - 1) + 1 := by
            omega
          rw [this, ← hg]
          exact h2
        · intro j hj
          rcases j with _ | j'
          · simpa using hurl
          · rw [← hg j']
            exact h3 j' (by omega)
      · intro h
        obtain ⟨h1, h2⟩ := ihFail h
        refine ⟨by omega, ?_⟩
        intro j hj
        rcases j with _ | j'
        · simpa using hurl
        · rw [← hg j']
          exact h2 j' (by omega)

/-- C7 witness: a session where the first attempt navigates to the
expected location. -/
theorem C7_try_step_contract_witness :
    (try_step (S := Nat) (fun _ => false) Nat.succ id
      (fun n => if n = 1 then "https://accounts.google.com/x" else "off")
      "accounts.google.com" 3 0).2 ≤ 3 :=
  (C7_try_step_contract (fun _ => false) Nat.succ id
    (fun n => if n = 1 then "https://accounts.google.com/x" else "off")
    "accounts.google.com" 3 0 (fun _ => rfl)).1

/-- C1: in every run of the poll loop the main-flow window is never
closed before the verification code has been read from its DOM (every
prefix of the trace containing the main-window close contains a prior
code read, under any interleaving the environment produces); and the
iteration whose probe finds the code element reads the code, writes it to
the subprocess stdin, flushes, closes the main window and only then sets
the record's status to done — dropping the main record from the pass at
once, without waiting for the two auxiliary consent records, whose states
the step leaves untouched. -/
theorem C1_read_then_close :
    (∀ env d fuel, chunkGood (browserPhase env d fuel).trace)
    ∧ (∀ (env : Env) (d : Nat) (tasks : Tasks) (trace : List Event)
        (visited : List Key) (ctr now : Nat) (rest : List Key) (s : String),
        tasks.tmain.status = .wait_code →
        env.obs ctr = .probe (.codeElem s) →
        pyStartsWith "4/0" s = true →
        passRec env d (Key.main :: rest) tasks trace visited ctr now
          = passRec env d rest
              (tasks.set .main ⟨.done, .str s, tasks.tmain.refresh_count⟩)
              (trace ++ [.codeRead s, .stdinWrite s, .stdinFlush,
                .closeWin .main, .setDone .main])
              (visited ++ [Key.main]) (ctr + 1) (now + env.dt ctr)) := by
  constructor
  · intro env d fuel
    exact (browserPhase_cases env d fuel).1
  · intro env d tasks trace visited ctr now rest s hst hobs hsw
    have hrec : tasks.get .main
        = (⟨.wait_code, tasks.tmain.result, tasks.tmain.refresh_count⟩ : TaskRec) := by
      show tasks.tmain = _
      rw [← hst]
    conv_lhs => rw [passRec]
    rw [hobs, hrec, show visit Key.main = visitMain from rfl, visitMain_code_pos hsw]
    simp

/-- C1 witness: a concrete pass whose only record is the main one in
wait_code, with the code element visible. -/
theorem C1_read_then_close_witness :
    passRec envC1w 50 [Key.main] ⟨⟨.wait_code, .none, 0⟩, ⟨.wait_accept, .pyFalse, 0⟩,
        ⟨.wait_accept, .pyFalse, 0⟩⟩ [] [] 0 0
      = passRec envC1w 50 []
          ((⟨⟨.wait_code, .none, 0⟩, ⟨.wait_accept, .pyFalse, 0⟩,
            ⟨.wait_accept, .pyFalse, 0⟩⟩ : Tasks).set .main ⟨.done, .str "4/0w", 0⟩)
          ([] ++ [.codeRead "4/0w", .stdinWrite "4/0w", .stdinFlush,
            .closeWin .main, .setDone .main])
          ([] ++ [Key.main]) (0 + 1) (0 + envC1w.dt 0) :=
  C1_read_then_close.2 envC1w 50 _ [] [] 0 0 [] "4/0w" rfl rfl (by decide)

/-- C2 (amended/corrected): in every run of the browser phase the code is
written to the subprocess stdin at most once, and exactly once in every
run that captures a verification code (reads a code element; writes also
equal the captured-code flag of the main record).  Stdin is closed at
most once in every run, and exactly once in the runs whose browser phase
succeeds; in those runs the trace is a prefix followed by the stdin close
and then the wait on subprocess exit, the single write lies in the prefix
(so the write happens-before the close, which happens-before the wait),
and every Window Task Record has finished: all are done and the active
set is empty.  A run that fails — including one that captured the code —
never closes stdin and never reaches the wait. -/
theorem C2_stdin_discipline (env : Env) (d fuel : Nat) :
    writeCount (browserPhase env d fuel).trace ≤ 1
    ∧ readCount (browserPhase env d fuel).trace = writeCount (browserPhase env d fuel).trace
    ∧ writeCount (browserPhase env d fuel).trace = mainStrFlag (browserPhase env d fuel).tasks
    ∧ ((∃ s, Event.codeRead s ∈ (browserPhase env d fuel).trace) →
        writeCount (browserPhase env d fuel).trace = 1)
    ∧ (browserPhase env d fuel).trace.count Event.stdinClose ≤ 1
    ∧ ((browserPhase env d fuel).outcome = .ok →
        (browserPhase env d fuel).trace.count Event.stdinClose = 1
        ∧ ∃ t0, (browserPhase env d fuel).trace = t0 ++ [Event.stdinClose, Event.procWait]
          ∧ (∃ s, Event.stdinWrite s ∈ t0)
          ∧ writeCount t0 = 1 ∧ Event.stdinClose ∉ t0 ∧ Event.procWait ∉ t0
          ∧ allDone (browserPhase env d fuel).tasks = true
          ∧ (browserPhase env d fuel).active = [])
    ∧ ((browserPhase env d fuel).outcome ≠ .ok →
        Event.stdinClose ∉ (browserPhase env d fuel).trace
        ∧ Event.procWait ∉ (browserPhase env d fuel).trace) := by
  obtain ⟨_, hw, hr, _, hok, hnok, _, _, _, _⟩ := browserPhase_cases env d fuel
  have hle : writeCount (browserPhase env d fuel).trace ≤ 1 := by
    rw [hw]; exact mainStrFlag_le_one _
  have hcap : (∃ s, Event.codeRead s ∈ (browserPhase env d fuel).trace) →
      writeCount (browserPhase env d fuel).trace = 1 := by
    rintro ⟨s, hs⟩
    have h1 := one_le_readCount hs
    rw [hr] at h1
    omega
  have hClose : (browserPhase env d fuel).outcome = .ok →
      (browserPhase env d fuel).trace.count Event.stdinClose = 1
      ∧ ∃ t0, (browserPhase env d fuel).trace = t0 ++ [Event.stdinClose, Event.procWait]
        ∧ (∃ s, Event.stdinWrite s ∈ t0)
        ∧ writeCount t0 = 1 ∧ Event.stdinClose ∉ t0 ∧ Event.procWait ∉ t0
        ∧ allDone (browserPhase env d fuel).tasks = true
        ∧ (browserPhase env d fuel).active = [] := by
    intro h
    obtain ⟨t0, h1, h2, h3, h4, h5, _h6, h7⟩ := hok h
    refine ⟨?_, t0, h1, exists_write_of_writeCount_one h4, h4, h2, h3, h5, h7⟩
    rw [h1, List.count_append, List.count_eq_zero_of_not_mem h2]
    rfl
  refine ⟨hle, hr, hw, hcap, ?_, hClose, hnok⟩
  by_cases hoc : (browserPhase env d fuel).outcome = .ok
  · rw [(hClose hoc).1]
  · rw [List.count_eq_zero_of_not_mem (hnok hoc).1]
    omega

/-- C2 witness: a successful run; stdin is closed exactly once, the trace
ends with the close then the wait, the single write precedes them, and
every record has finished. -/
theorem C2_stdin_discipline_witness :
    (browserPhase envC2ok 100 20).trace.count Event.stdinClose = 1
    ∧ ∃ t0, (browserPhase envC2ok 100 20).trace = t0 ++ [Event.stdinClose, Event.procWait]
      ∧ (∃ s, Event.stdinWrite s ∈ t0)
      ∧ writeCount t0 = 1 ∧ Event.stdinClose ∉ t0 ∧ Event.procWait ∉ t0
      ∧ allDone (browserPhase envC2ok 100 20).tasks = true
      ∧ (browserPhase envC2ok 100 20).active = [] :=
  (C2_stdin_discipline envC2ok 100 20).2.2.2.2.2.1 (by decide)

/-- C2 counterexample: a run that captures the verification code (a code
read is in the trace and the code was written) but whose deadline expires
with the consent records unfinished: stdin is closed zero times, not
exactly once as the claim requires of every code-capturing run. -/
theorem C2_counterexample :
    (∃ s, Event.codeRead s ∈ (browserPhase envC2to 100 10).trace)
    ∧ Event.stdinWrite "4/0x" ∈ (browserPhase envC2to 100 10).trace
    ∧ (browserPhase envC2to 100 10).trace.count Event.stdinClose = 0
    ∧ (browserPhase envC2to 100 10).trace.count Event.stdinClose ≠ 1
    ∧ (browserPhase envC2to 100 10).outcome ≠ .ok :=
  ⟨⟨"4/0x", by decide⟩, by decide, by decide, by decide, by decide⟩

/-- C3: every record's refresh counter stays ≤ 2 throughout any run; a
driver timeout dispatches to the shared handler, which refreshes the
window exactly when the counter is below 2 and the deadline has not yet
elapsed (incrementing the counter), and otherwise — after the 2nd refresh
or once the deadline has passed — marks the record done with the falsy
result False. -/
theorem C3_refresh_bounded :
    (∀ env d fuel k, (((browserPhase env d fuel).tasks.get k)).refresh_count ≤ 2)
    ∧ (∀ k (r : TaskRec) now d, visit k r .timeout now d = onTimeout k r now d)
    ∧ (∀ k (r : TaskRec) now d, r.refresh_count < 2 → now < d →
        onTimeout k r now d
          = ({ r with refresh_count := r.refresh_count + 1 }, [.refreshWin k], false))
    ∧ (∀ k (r : TaskRec) now d, 2 ≤ r.refresh_count →
        onTimeout k r now d
          = ({ r with status := .done, result := .pyFalse }, [.setDone k], false))
    ∧ (∀ k (r : TaskRec) now d, d ≤ now →
        onTimeout k r now d
          = ({ r with status := .done, result := .pyFalse }, [.setDone k], false))
    ∧ PyVal.truthy .pyFalse = false := by
  refine ⟨?_, ?_, ?_, ?_, ?_, rfl⟩
  · intro env d fuel k
    exact (browserPhase_cases env d fuel).2.2.2.1 k
  · intro k r now d; cases k <;> rfl
  · intro k r now d h1 h2; simp [onTimeout, h1, h2]
  · intro k r now d h; simp [onTimeout, Nat.not_lt.2 h]
  · intro k r now d h
    by_cases hrc : r.refresh_count < 2 <;> simp [onTimeout, hrc, Nat.not_lt.2 h]

/-- C3 witness: a record with one refresh left, before the deadline. -/
theorem C3_refresh_bounded_witness :
    onTimeout Key.main ⟨.wait_continue, .none, 1⟩ 0 5
      = (⟨.wait_continue, .none, 2⟩, [.refreshWin Key.main], false) :=
  C3_refresh_bounded.2.2.1 Key.main ⟨.wait_continue, .none, 1⟩ 0 5 (by decide) (by decide)

/-- C4 (amended): the browser phase succeeds (reaches the stdin close
without raising) only if every record is done with a truthy result, and
conversely whenever the loop completed (no interrupt, fuel left) with all
records done and truthy; when it fails with the names diagnostic, all
records are done and the diagnostic lists exactly the names of the
falsy-result records; when the deadline expired with unfinished records
the failure is the timeout diagnostic, which carries no record names; the
no-names runtime diagnostic of line 561 is unreachable. -/
theorem C4_success_and_diagnostics (env : Env) (d fuel : Nat) :
    ((browserPhase env d fuel).outcome = .ok →
        allDone (browserPhase env d fuel).tasks = true
        ∧ allTruthy (browserPhase env d fuel).tasks = true)
    ∧ ((browserPhase env d fuel).outcome ≠ .interrupted →
        (browserPhase env d fuel).outcome ≠ .fuelOut →
        allDone (browserPhase env d fuel).tasks = true →
        allTruthy (browserPhase env d fuel).tasks = true →
        (browserPhase env d fuel).outcome = .ok)
    ∧ (∀ ns, (browserPhase env d fuel).outcome = .errNames ns →
        ns = falsyNames (browserPhase env d fuel).tasks
        ∧ allDone (browserPhase env d fuel).tasks = true
        ∧ allTruthy (browserPhase env d fuel).tasks = false)
    ∧ ((browserPhase env d fuel).outcome = .errTimeout →
        allDone (browserPhase env d fuel).tasks = false)
    ∧ (browserPhase env d fuel).outcome ≠ .errRuntimeNoNames := by
  obtain ⟨_, _, _, _, hok, _, hnames, hto, hnn, hconv⟩ := browserPhase_cases env d fuel
  refine ⟨?_, hconv, hnames, hto, hnn⟩
  intro h
  obtain ⟨_, _, _, _, _, h6, h7, _⟩ := hok h
  exact ⟨h6, h7⟩

/-- C4 witness: a run where the main flow succeeds but both consent
records fail after exhausting their refresh budget: the diagnostic lists
exactly the two falsy-result record names. -/
theorem C4_success_and_diagnostics_witness :
    ["Gen Language ToS", "Universal ToS"] = falsyNames (browserPhase envC4n 100 10).tasks
    ∧ allDone (browserPhase envC4n 100 10).tasks = true
    ∧ allTruthy (browserPhase envC4n 100 10).tasks = false :=
  (C4_success_and_diagnostics envC4n 100 10).2.2.1
    ["Gen Language ToS", "Universal ToS"] (by decide)

/-- C4 counterexample: the deadline expires with unfinished records; the
run fails, but with the timeout diagnostic, not a diagnostic listing the
names of the records whose result is not truthy, refuting the claim's
"otherwise ... the raised diagnostic lists the names" for every failure. -/
theorem C4_counterexample :
    (browserPhase envC4to 100 5).outcome = .errTimeout
    ∧ allTruthy (browserPhase envC4to 100 5).tasks = false
    ∧ (browserPhase envC4to 100 5).outcome
        ≠ .errNames (falsyNames (browserPhase envC4to 100 5).tasks) := by decide

/-- C10: the index-driven inner loop equals the structural once-per-record
pass; on a non-interrupted pass the sequence of visited records is exactly
the starting active list (each record visited exactly once, in list
order); the surviving active list is a sublist (so a removal never skips
the following record); and, for the duplicate-free active list of
not-yet-done records the scheduler maintains, a record is removed during
its own visit exactly when its status became done. -/
theorem C10_index_loop_visits_once (env : Env) (d : Nat) (active : List Key)
    (tasks : Tasks) (trace : List Event) (visited : List Key) (ctr now : Nat) :
    innerLoopAux env d 0 active tasks trace visited ctr now
      = passRec env d active tasks trace visited ctr now
    ∧ (passRec env d active tasks trace visited ctr now).active.Sublist active
    ∧ ((passRec env d active tasks trace visited ctr now).intr = false →
        (passRec env d active tasks trace visited ctr now).visited = visited ++ active)
    ∧ (active.Nodup → (∀ k ∈ active, (tasks.get k).status ≠ .done) →
        (passRec env d active tasks trace visited ctr now).intr = false →
        ∀ k ∈ active,
          (((passRec env d active tasks trace visited ctr now).tasks.get k).status = .done
            ↔ k ∉ (passRec env d active tasks trace visited ctr now).active)) := by
  obtain ⟨hs, _hu, hv, hiff⟩ := passRec_mech env d active tasks trace visited ctr now
  refine ⟨?_, hs, hv, hiff⟩
  rw [innerLoopAux_eq_passRec env d active.length 0 active tasks trace visited ctr now
    (by omega)]
  simp [mergeTake]

/-- C10 witness: a concrete full pass over the three records visits each
exactly once, in order. -/
theorem C10_index_loop_visits_once_witness :
    (passRec envC10 100 [Key.main, Key.gen_lang, Key.universal] initTasks [] [] 0 0).visited
      = [] ++ [Key.main, Key.gen_lang, Key.universal] :=
  (C10_index_loop_visits_once envC10 100 [Key.main, Key.gen_lang, Key.universal]
    initTasks [] [] 0 0).2.2.1 (by decide)

end AutoLogin
